import Mathlib

/-!
Verification of the HDFlowsheet checklist synchronization service.

This file gives a shallow embedding of the HTTP handlers in
`api/checklists.js` (save / load / backup-list / restore, together with the
`backupCurrentChecklists` helper and the `MAX_BACKUPS` ring bound),
`api/load.js` (the generic document loader) and `lib/auth.js`
(`verifyAuth`), against the normalized schema
(`checklists`, `checklist_folders`, `checklist_items`,
`checklist_completions`, `app_data`) declared in the repository's SQL
setup script.  The store is modelled as lists of rows plus a fresh-id
counter (BIGSERIAL ids are fresh and monotone); SQL `ORDER BY` is
modelled by a stable insertion sort on the relevant column; foreign keys
with `ON DELETE CASCADE` / `SET NULL` and the `UNIQUE` constraint on
completions are modelled explicitly where the handlers touch them.
-/

namespace HDF

/-- JS `v || dflt` for an optional string, where both a missing value and
the empty string are falsy. -/
def jsStrOr (v : Option String) (dflt : String) : String :=
  match v with
  | none => dflt
  | some s => if s = "" then dflt else s

/-- JS `v || null` for an optional string (empty string collapses to null). -/
def jsStrOrNull (v : Option String) : Option String :=
  match v with
  | none => none
  | some s => if s = "" then none else some s

/-- JS `v || 0` for an optional number used as a sort order. -/
def jsNatOr (v : Option Nat) (dflt : Nat) : Nat :=
  v.getD dflt

/-- JS truthiness test for an optional numeric id (`0`, `null` and
`undefined` are falsy). -/
def jsNatTruthy (v : Option Nat) : Option Nat :=
  match v with
  | none => none
  | some n => if n = 0 then none else some n

/-- JS truthiness for an optional string (empty string is falsy). -/
def jsStrTruthy (v : Option String) : Option String :=
  match v with
  | none => none
  | some s => if s = "" then none else some s

/-- String prefix test on the underlying character lists (the model of
`String.prototype.startsWith` / SQL `LIKE 'p%'`). -/
def strStartsWith (s pre : String) : Bool :=
  pre.data.isPrefixOf s.data

/-- Drop the first `n` characters of a string (the model of the
`authHeader.replace('Bearer ', '')` prefix strip). -/
def strDrop (s : String) (n : Nat) : String :=
  ⟨s.data.drop n⟩

/-- Split a character list at every occurrence of `sep`, the model of
`String.prototype.split` with a one-character separator. -/
def splitOnChar (sep : Char) : List Char → List (List Char)
  | [] => [[]]
  | c :: rest =>
    if c = sep then [] :: splitOnChar sep rest
    else
      match splitOnChar sep rest with
      | h :: t => (c :: h) :: t
      | [] => [[c]]

/-- Numeric value of a digit run. -/
def digitsVal (l : List Char) : Nat :=
  l.foldl (fun n c => n * 10 + (c.toNat - 48)) 0

/-- JS `parseInt` restricted to the shapes that appear in completion keys:
parse a leading run of digits; no digits means `NaN`, modelled as `none`. -/
def jsParseIntChars (l : List Char) : Option Nat :=
  let ds := l.takeWhile Char.isDigit
  if ds.isEmpty then none else some (digitsVal ds)

/-- Stable ascending sort by a numeric column, the model of SQL
`ORDER BY col ASC` used by the handlers. -/
def sortByKeyNat {α : Type} (key : α → Nat) (l : List α) : List α :=
  List.insertionSort (fun a b => key a ≤ key b) l

/-- Stable descending sort by a numeric column, the model of SQL
`ORDER BY col DESC` used for backup listings. -/
def sortDescByKeyNat {α : Type} (key : α → Nat) (l : List α) : List α :=
  List.insertionSort (fun a b => key b ≤ key a) l

/-! ### Client-side (request body) shapes -/

/-- A folder as the client sends it: a client-local numeric `id`, a name
and an optional `order`. -/
structure ClientFolder where
  id : Nat
  name : String
  order : Option Nat
deriving Repr, DecidableEq

/-- An item as the client sends it; `folderId` refers to the client-local
id of a folder in the same checklist. -/
structure ClientItem where
  text : String
  url : Option String
  order : Option Nat
  folderId : Option Nat
deriving Repr, DecidableEq

/-- A checklist document as the client sends it.  The client's `position`
key carries the role label (the legacy naming swap). -/
structure ClientChecklist where
  name : String
  position : Option String
  folders : Option (List ClientFolder)
  items : Option (List ClientItem)
deriving Repr, DecidableEq

/-- One value of the completions mapping:
`{completedItems: [...], timestamp}`. -/
structure CompVal where
  completedItems : Option (List Nat)
  timestamp : Option String
deriving Repr, DecidableEq

/-- The completions payload: entries of the JSON mapping, keys of the form
`"{date}_{checklistId}"`, in object insertion order. -/
abbrev CompPayload := List (String × CompVal)

/-! ### Store rows (normalized tables) -/

/-- A row of the `checklists` table. -/
structure ChecklistRow where
  id : Nat
  user_id : String
  name : String
  position : Nat
  role : Option String
deriving Repr, DecidableEq

/-- A row of the `checklist_folders` table. -/
structure FolderRow where
  id : Nat
  checklist_id : Nat
  name : String
  sort_order : Nat
deriving Repr, DecidableEq

/-- A row of the `checklist_items` table. -/
structure ItemRow where
  id : Nat
  checklist_id : Nat
  folder_id : Option Nat
  item_text : String
  url : Option String
  sort_order : Nat
deriving Repr, DecidableEq

/-- A row of the `checklist_completions` table (the surrogate UUID primary
key is omitted; the table's `UNIQUE(checklist_id, item_id,
completion_date)` constraint is enforced at insert time). -/
structure CompletionRow where
  checklist_id : Nat
  item_id : Nat
  completion_date : String
  completed_at : String
deriving Repr, DecidableEq

/-- The serialized content of one checklist backup stored in `app_data`
(`{checklists, folders, items, backupTimestamp}`). -/
structure BackupData where
  checklists : List ChecklistRow
  folders : List FolderRow
  items : List ItemRow
  backupTimestamp : Nat
deriving Repr, DecidableEq

/-- A backup row of the `app_data` table as used by the checklist handler
(`type` is `checklist_backup_<millis>`; timestamps are modelled as
naturals ordered like the ISO strings the code stores). -/
structure AppDataRow where
  id : Nat
  type_ : String
  user_id : String
  data : BackupData
  updated_at : Nat
deriving Repr, DecidableEq

/-- The relational store as the checklist handler sees it, plus a fresh-id
counter modelling the BIGSERIAL sequences. -/
structure Store where
  checklists : List ChecklistRow
  folders : List FolderRow
  items : List ItemRow
  completions : List CompletionRow
  appData : List AppDataRow
  nextId : Nat
deriving Repr, DecidableEq

/-- Basic well-formedness of a store: ids already handed out are below the
fresh-id counter (BIGSERIAL never reuses ids), and `app_data` ids are
distinct. -/
structure Store.WF (st : Store) : Prop where
  one_le_nextId : 1 ≤ st.nextId
  checklists_lt : ∀ c ∈ st.checklists, c.id < st.nextId
  folders_lt : ∀ f ∈ st.folders, f.id < st.nextId
  items_lt : ∀ i ∈ st.items, i.id < st.nextId
  folders_ref_lt : ∀ f ∈ st.folders, f.checklist_id < st.nextId
  items_ref_lt : ∀ i ∈ st.items, i.checklist_id < st.nextId
  appData_lt : ∀ b ∈ st.appData, b.id < st.nextId
  appData_nodup : (st.appData.map (fun b => b.id)).Nodup

/-! ### Authentication (`lib/auth.js`) -/

/-- The external identity provider, consumed through a "verify token,
return user identity" contract (`supabase.auth.getUser`). -/
structure AuthEnv where
  tokenUser : String → Option String

/-- `verifyAuth` from `lib/auth.js`: require an `Authorization` header of
the form `Bearer <token>`, strip the prefix and ask the identity provider;
any failure yields no user. -/
def verifyAuth (env : AuthEnv) (authHeader : Option String) : Option String :=
  match authHeader with
  | none => none
  | some h =>
    if strStartsWith h "Bearer " then env.tokenUser (strDrop h 7)
    else none

/-! ### Requests and responses of the checklists handler -/

/-- A request to the checklists endpoint, restricted to the fields the
handler reads (`req.method`, the auth header, `req.query.user_id`,
`req.body.user_id`, `req.body.action`, `req.body.backupId`,
`req.body.checklists`, `req.body.completions`). -/
structure ChkRequest where
  method : String
  authorization : Option String
  queryUserId : Option String
  bodyUserId : Option String
  action : Option String
  backupId : Option Nat
  checklists : Option (List ClientChecklist)
  completions : Option CompPayload
deriving Repr

/-- The authentication step shared by the handlers: prefer the JWT, fall
back to the deprecated `req.query.user_id || req.body?.user_id` parameter. -/
def authUserId (env : AuthEnv) (req : ChkRequest) : Option String :=
  match verifyAuth env req.authorization with
  | some u => some u
  | none =>
    match jsStrTruthy req.queryUserId with
    | some s => some s
    | none => jsStrTruthy req.bodyUserId

/-- A folder in the nested structure returned to the frontend. -/
structure OutFolder where
  id : Nat
  name : String
  order : Nat
deriving Repr, DecidableEq

/-- An item in the nested structure returned to the frontend. -/
structure OutItem where
  id : Nat
  text : String
  order : Nat
  folderId : Option Nat
  url : Option String
deriving Repr, DecidableEq

/-- A checklist in the nested structure returned to the frontend; the
`position` field carries the stored role label. -/
structure OutChecklist where
  id : Nat
  name : String
  position : String
  folders : List OutFolder
  items : List OutItem
deriving Repr, DecidableEq

/-- One value of the completions mapping returned by load. -/
structure OutComp where
  completedItems : List Nat
  timestamp : String
deriving Repr, DecidableEq

/-- A backup summary produced by the `list_backups` action. -/
structure BackupSummary where
  id : Nat
  type_ : String
  timestamp : Nat
  checklistCount : Nat
  itemCount : Nat
deriving Repr, DecidableEq

/-- The responses the checklists handler can produce. -/
inductive ChkResponse where
  | preflight
  | unauthorized
  | badRequest (msg : String)
  | notFound (msg : String)
  | methodNotAllowed
  | loaded (checklists : List OutChecklist) (completions : List (String × OutComp))
  | backups (l : List BackupSummary)
  | restored (checklistCount itemCount : Nat)
  | saved
deriving Repr, DecidableEq

/-- HTTP status code of a checklists-handler response. -/
def ChkResponse.status : ChkResponse → Nat
  | .preflight => 200
  | .unauthorized => 401
  | .badRequest _ => 400
  | .notFound _ => 404
  | .methodNotAllowed => 405
  | .loaded _ _ => 200
  | .backups _ => 200
  | .restored _ _ => 200
  | .saved => 200

/-! ### Backup manager (`backupCurrentChecklists` and `MAX_BACKUPS`) -/

/-- `MAX_BACKUPS = 5`: keep the last 5 backups per user. -/
def MAX_BACKUPS : Nat := 5

/-- The filter used by every backup query:
`.eq('user_id', u).like('type', 'checklist_backup_%')`. -/
def isUserBackup (u : String) (b : AppDataRow) : Bool :=
  b.user_id == u && strStartsWith b.type_ "checklist_backup_"

/-- The snapshot `app_data` row `backupCurrentChecklists` builds: the
user's checklists, their folders and items (fetched by checklist id), a
capture timestamp, the `checklist_backup_<millis>` type tag. -/
def snapshotRow (nowMs : Nat) (u : String) (st : Store) : AppDataRow :=
  let cls := st.checklists.filter (fun c => c.user_id == u)
  let ids := cls.map (fun c => c.id)
  { id := st.nextId
    type_ := "checklist_backup_" ++ toString nowMs
    user_id := u
    data := { checklists := cls
              folders := st.folders.filter (fun f => ids.contains f.checklist_id)
              items := st.items.filter (fun i => ids.contains i.checklist_id)
              backupTimestamp := nowMs }
    updated_at := nowMs }

/-- `backupCurrentChecklists`: snapshot the user's checklist subtree into
a new `app_data` row, then delete every backup of this user beyond the
`MAX_BACKUPS` most recent (ordered by `updated_at` descending).  A user
with zero checklists is a no-op. -/
def backupCurrentChecklists (nowMs : Nat) (u : String) (st : Store) : Store :=
  let cls := st.checklists.filter (fun c => c.user_id == u)
  if cls.isEmpty then st
  else
    let row := snapshotRow nowMs u st
    let st1 : Store := { st with appData := st.appData ++ [row], nextId := st.nextId + 1 }
    let allBackups := sortDescByKeyNat (fun b => b.updated_at) (st1.appData.filter (isUserBackup u))
    if MAX_BACKUPS < allBackups.length then
      let toDelete := (allBackups.drop MAX_BACKUPS).map (fun b => b.id)
      { st1 with appData := st1.appData.filter (fun b => !(toDelete.contains b.id)) }
    else st1

/-- The `list_backups` action: the user's backups, newest first, limited
to `MAX_BACKUPS`, summarized. -/
def listBackupsOp (u : String) (st : Store) : List BackupSummary :=
  let backups := (sortDescByKeyNat (fun b => b.updated_at) (st.appData.filter (isUserBackup u))).take MAX_BACKUPS
  backups.map (fun b =>
    { id := b.id
      type_ := b.type_
      timestamp := if b.data.backupTimestamp = 0 then b.updated_at else b.data.backupTimestamp
      checklistCount := b.data.checklists.length
      itemCount := b.data.items.length })

/-! ### Replace-all delete (with the schema's cascades) -/

/-- Deleting a user's checklists, with the schema's referential actions:
folders and items of those checklists are cascade-deleted,
completions referencing those checklists or those items are
cascade-deleted, and surviving items pointing at a deleted folder get
`folder_id` set to null. -/
def cascadeDeleteChecklists (u : String) (st : Store) : Store :=
  let deadCls := (st.checklists.filter (fun c => c.user_id == u)).map (fun c => c.id)
  let deadFolders := (st.folders.filter (fun f => deadCls.contains f.checklist_id)).map (fun f => f.id)
  let deadItems := (st.items.filter (fun i => deadCls.contains i.checklist_id)).map (fun i => i.id)
  { st with
    checklists := st.checklists.filter (fun c => !(c.user_id == u))
    folders := st.folders.filter (fun f => !(deadCls.contains f.checklist_id))
    items := (st.items.filter (fun i => !(deadCls.contains i.checklist_id))).map (fun i =>
      match i.folder_id with
      | some fid => if deadFolders.contains fid then { i with folder_id := none } else i
      | none => i)
    completions := st.completions.filter (fun c =>
      !(deadCls.contains c.checklist_id) && !(deadItems.contains c.item_id)) }

/-! ### Save: insert loop (steps 3-5) -/

/-- Lookup in the client-local-folder-id map, including the
`folderIdMap[...] || null` coercion (a store id of 0 would be falsy).
The map is kept newest-first so that a duplicate client id is resolved to
the last folder inserted, as JS object assignment does. -/
def mapLookup (m : List (Nat × Nat)) (k : Nat) : Option Nat :=
  match m.find? (fun p => p.1 == k) with
  | some p => if p.2 = 0 then none else some p.2
  | none => none

/-- `item.folderId ? folderIdMap[item.folderId] || null : null`. -/
def clientFolderRef (m : List (Nat × Nat)) (fid : Option Nat) : Option Nat :=
  match jsNatTruthy fid with
  | some v => mapLookup m v
  | none => none

/-- Insert the folders of one checklist in order, building the
client-local id to store id map (step 4 of the save algorithm). -/
def insertFolders (clId : Nat) : List ClientFolder → Store → List (Nat × Nat) → Store × List (Nat × Nat)
  | [], st, m => (st, m)
  | f :: rest, st, m =>
    let row : FolderRow :=
      { id := st.nextId, checklist_id := clId, name := f.name, sort_order := jsNatOr f.order 0 }
    insertFolders clId rest
      { st with folders := st.folders ++ [row], nextId := st.nextId + 1 }
      ((f.id, row.id) :: m)

/-- Insert the items of one checklist in order, translating `folderId`
through the map and falling back to unfiled (step 5). -/
def insertItems (clId : Nat) (m : List (Nat × Nat)) : List ClientItem → Store → Store
  | [], st => st
  | it :: rest, st =>
    let row : ItemRow :=
      { id := st.nextId
        checklist_id := clId
        folder_id := clientFolderRef m it.folderId
        item_text := it.text
        url := jsStrOrNull it.url
        sort_order := jsNatOr it.order 0 }
    insertItems clId m rest { st with items := st.items ++ [row], nextId := st.nextId + 1 }

/-- The per-checklist insert loop of the save path: the array index
becomes the stored `position`, the client's `position` field (or
`'General'` when falsy) becomes the stored `role`. -/
def saveLoop (u : String) : List ClientChecklist → Nat → Store → Store
  | [], _, st => st
  | c :: rest, i, st =>
    let clRow : ChecklistRow :=
      { id := st.nextId
        user_id := u
        name := c.name
        position := i
        role := some (jsStrOr c.position "General") }
    let st1 : Store := { st with checklists := st.checklists ++ [clRow], nextId := st.nextId + 1 }
    let fm := insertFolders clRow.id (c.folders.getD []) st1 []
    let st3 := insertItems clRow.id fm.2 (c.items.getD []) fm.1
    saveLoop u rest (i + 1) st3

/-! ### Save: completions step (step 6) -/

/-- A completion row as assembled by the handler before insertion; the
checklist id is `none` when `parseInt` produced `NaN`. -/
structure PendingComp where
  checklist_id : Option Nat
  item_id : Nat
  completion_date : String
  completed_at : String
deriving Repr, DecidableEq

/-- Build `completionsToInsert` from the payload: each key splits as
`"{date}_{checklistId}"` and each listed item id yields one row. -/
def buildCompletionInserts (nowIso : String) : CompPayload → List PendingComp
  | [] => []
  | (key, v) :: rest =>
    let parts := splitOnChar '_' key.data
    let date : String := ⟨parts.headD []⟩
    let cid := (parts[1]?).bind jsParseIntChars
    (match v.completedItems with
     | some items =>
       items.map (fun it =>
         ({ checklist_id := cid
            item_id := it
            completion_date := date
            completed_at := v.timestamp.getD nowIso } : PendingComp))
     | none => []) ++ buildCompletionInserts nowIso rest

/-- The key constrained by `UNIQUE(checklist_id, item_id, completion_date)`. -/
def compKey (r : PendingComp) : Nat × Nat × String :=
  (r.checklist_id.getD 0, r.item_id, r.completion_date)

/-- No two rows of the batch share the unique key. -/
def distinctCompKeys : List PendingComp → Bool
  | [] => true
  | r :: rest => !(rest.any (fun r2 => compKey r2 == compKey r)) && distinctCompKeys rest

/-- Whether the single batched `INSERT` into `checklist_completions`
succeeds: every row must satisfy the foreign keys into `checklists` and
`checklist_items`, the `NOT NULL` on the checklist id, and the unique
constraint (against the table and within the batch).  A failing batch
inserts nothing. -/
def completionInsertOk (st : Store) (rows : List PendingComp) : Bool :=
  rows.all (fun r =>
    match r.checklist_id with
    | some c =>
      st.checklists.any (fun cl => cl.id == c)
      && st.items.any (fun i => i.id == r.item_id)
      && !(st.completions.any (fun e =>
            e.checklist_id == c && e.item_id == r.item_id && e.completion_date == r.completion_date))
    | none => false)
  && distinctCompKeys rows

/-- Step 6 of the save path: delete every completion row dated today
(note: not filtered by user), then insert the batch built from the
payload; an insert error is logged and swallowed. -/
def saveCompletionsStep (today nowIso : String) (comp : CompPayload) (st : Store) : Store :=
  let st1 : Store := { st with completions := st.completions.filter (fun c => !(c.completion_date == today)) }
  let rows := buildCompletionInserts nowIso comp
  if rows.isEmpty then st1
  else if completionInsertOk st1 rows then
    { st1 with
      completions := st1.completions ++ rows.map (fun r =>
        { checklist_id := r.checklist_id.getD 0
          item_id := r.item_id
          completion_date := r.completion_date
          completed_at := r.completed_at }) }
  else st1

/-- The normal save operation (POST with a checklists array): best-effort
backup, replace-all delete, insert loop, optional completions step. -/
def saveOp (u today nowIso : String) (nowMs : Nat) (cls : List ClientChecklist)
    (comp : Option CompPayload) (st : Store) : ChkResponse × Store :=
  let st1 := backupCurrentChecklists nowMs u st
  let st2 := cascadeDeleteChecklists u st1
  let st3 := saveLoop u cls 0 st2
  let st4 :=
    match comp with
    | some m => saveCompletionsStep today nowIso m st3
    | none => st3
  (ChkResponse.saved, st4)

/-! ### Load (GET) -/

/-- Group today's completion rows into the
`"{date}_{checklistId}" -> {completedItems, timestamp}` mapping. -/
def addCompletion (acc : List (String × OutComp)) (c : CompletionRow) : List (String × OutComp) :=
  let key := c.completion_date ++ "_" ++ toString c.checklist_id
  if acc.any (fun p => p.1 == key) then
    acc.map (fun p =>
      if p.1 == key then (p.1, { p.2 with completedItems := p.2.completedItems ++ [c.item_id] })
      else p)
  else acc ++ [(key, { completedItems := [c.item_id], timestamp := c.completed_at })]

/-- Fold the grouped completions mapping in row order. -/
def groupCompletions (rows : List CompletionRow) : List (String × OutComp) :=
  rows.foldl addCompletion []

/-- The GET path: fetch the user's checklists ordered by `position`,
their folders and items ordered by `sort_order`, today's completions for
those checklists, and assemble the nested structure. -/
def loadOp (u today : String) (st : Store) : List OutChecklist × List (String × OutComp) :=
  let clsRows := sortByKeyNat (fun c => c.position) (st.checklists.filter (fun c => c.user_id == u))
  let ids := clsRows.map (fun c => c.id)
  let foldersData :=
    if ids.isEmpty then []
    else sortByKeyNat (fun f => f.sort_order) (st.folders.filter (fun f => ids.contains f.checklist_id))
  let itemsData :=
    if ids.isEmpty then []
    else sortByKeyNat (fun i => i.sort_order) (st.items.filter (fun i => ids.contains i.checklist_id))
  let completionsData :=
    if ids.isEmpty then []
    else st.completions.filter (fun c => ids.contains c.checklist_id && c.completion_date == today)
  let outCls := clsRows.map (fun c =>
    ({ id := c.id
       name := c.name
       position := jsStrOr c.role "General"
       folders := (foldersData.filter (fun f => f.checklist_id == c.id)).map (fun f =>
         ({ id := f.id, name := f.name, order := f.sort_order } : OutFolder))
       items := (itemsData.filter (fun i => i.checklist_id == c.id)).map (fun i =>
         ({ id := i.id, text := i.item_text, order := i.sort_order, folderId := i.folder_id, url := i.url } : OutItem)) } : OutChecklist))
  (outCls, groupCompletions completionsData)

/-! ### Restore from backup -/

/-- Replay one backed-up checklist's folders, rebuilding the old-id to
new-id map (`if (!fError && newFolder) folderIdMap[folder.id] = ...`). -/
def restoreFolders (clId : Nat) : List FolderRow → Store → List (Nat × Nat) → Store × List (Nat × Nat)
  | [], st, m => (st, m)
  | f :: rest, st, m =>
    let row : FolderRow :=
      { id := st.nextId, checklist_id := clId, name := f.name, sort_order := f.sort_order }
    restoreFolders clId rest
      { st with folders := st.folders ++ [row], nextId := st.nextId + 1 }
      ((f.id, row.id) :: m)

/-- Replay one backed-up checklist's items
(`folder_id: item.folder_id ? folderIdMap[item.folder_id] || null : null`). -/
def restoreItems (clId : Nat) (m : List (Nat × Nat)) : List ItemRow → Store → Store
  | [], st => st
  | it :: rest, st =>
    let row : ItemRow :=
      { id := st.nextId
        checklist_id := clId
        folder_id := clientFolderRef m it.folder_id
        item_text := it.item_text
        url := jsStrOrNull it.url
        sort_order := it.sort_order }
    restoreItems clId m rest { st with items := st.items ++ [row], nextId := st.nextId + 1 }

/-- Replay the backup's checklists through the same id-remapping logic as
save: ids are always freshly assigned, the stored `position` and `role`
are carried over (`role: checklist.role || 'General'`). -/
def restoreLoop (u : String) (data : BackupData) : List ChecklistRow → Store → Store
  | [], st => st
  | c :: rest, st =>
    let clRow : ChecklistRow :=
      { id := st.nextId
        user_id := u
        name := c.name
        position := c.position
        role := some (jsStrOr c.role "General") }
    let st1 : Store := { st with checklists := st.checklists ++ [clRow], nextId := st.nextId + 1 }
    let fm := restoreFolders clRow.id (data.folders.filter (fun f => f.checklist_id == c.id)) st1 []
    let st3 := restoreItems clRow.id fm.2 (data.items.filter (fun i => i.checklist_id == c.id)) fm.1
    restoreLoop u data rest st3

/-- The `restore_backup` action: fetch the backup scoped to the requesting
user (`.eq('id', backupId).eq('user_id', userId).single()`; any failure is
answered as not-found), take a fresh backup of current state, delete the
current subtree, and replay the snapshot. -/
def restoreOp (u : String) (nowMs : Nat) (backupId : Nat) (st : Store) : ChkResponse × Store :=
  match st.appData.filter (fun b => b.id == backupId && b.user_id == u) with
  | [b] =>
    let st1 := backupCurrentChecklists nowMs u st
    let st2 := cascadeDeleteChecklists u st1
    let st3 := restoreLoop u b.data b.data.checklists st2
    (ChkResponse.restored b.data.checklists.length b.data.items.length, st3)
  | _ => (ChkResponse.notFound "Backup not found", st)

/-! ### The checklists handler (`api/checklists.js`, with the
backup/restore actions of the extended variant) -/

/-- The checklists endpoint: CORS preflight, authentication (JWT with the
deprecated `user_id` parameter fallback), then GET load, POST
`list_backups` / `restore_backup` / normal save, else 405. -/
def checklistsHandler (env : AuthEnv) (today nowIso : String) (nowMs : Nat)
    (req : ChkRequest) (st : Store) : ChkResponse × Store :=
  if req.method == "OPTIONS" then (ChkResponse.preflight, st)
  else
    match authUserId env req with
    | none => (ChkResponse.unauthorized, st)
    | some u =>
      if req.method == "GET" then
        let r := loadOp u today st
        (ChkResponse.loaded r.1 r.2, st)
      else if req.method == "POST" then
        if req.action == some "list_backups" then
          (ChkResponse.backups (listBackupsOp u st), st)
        else if req.action == some "restore_backup" then
          match jsNatTruthy req.backupId with
          | none => (ChkResponse.badRequest "backupId required for restore", st)
          | some bid => restoreOp u nowMs bid st
        else
          match req.checklists with
          | none => (ChkResponse.badRequest "Invalid data: checklists array required", st)
          | some cls => saveOp u today nowIso nowMs cls req.completions st
      else (ChkResponse.methodNotAllowed, st)

/-! ### The document loader (`api/load.js`) -/

/-- A row of `app_data` as the document loader sees it (`data` is an
opaque JSON blob). -/
structure DocRow where
  type_ : String
  user_id : String
  data : String
  updated_at : String
deriving Repr, DecidableEq

/-- The document table. -/
abbrev DocStore := List DocRow

/-- A request to the document loader. -/
structure LoadRequest where
  method : String
  authorization : Option String
  queryType : Option String
  queryUserId : Option String
deriving Repr

/-- Responses of the document loader; `okEmpty` is the success response
carrying an empty object for a missing document. -/
inductive LoadResponse where
  | preflight
  | methodNotAllowed
  | unauthorized
  | badType
  | okEmpty
  | okData (data : String)
deriving Repr, DecidableEq

/-- HTTP status code of a document-loader response. -/
def LoadResponse.status : LoadResponse → Nat
  | .preflight => 200
  | .methodNotAllowed => 405
  | .unauthorized => 401
  | .badType => 400
  | .okEmpty => 200
  | .okData _ => 200

/-- Whether a document-loader response carries `success: true`. -/
def LoadResponse.success : LoadResponse → Bool
  | .okEmpty => true
  | .okData _ => true
  | _ => false

/-- The valid document types. -/
def validTypes : List String :=
  ["flowsheet", "operations", "snippets", "labs", "timestamp_logs", "wheelchair_profiles"]

/-- `api/load.js`: GET only; `type` defaults to `flowsheet`; JWT auth with
the `req.query.user_id` fallback; invalid type is a 400; the
`(type, user)` row is fetched with `.single()`, and the no-row error
(PGRST116) is answered as success with an empty object. -/
def loadDocumentHandler (env : AuthEnv) (req : LoadRequest) (db : DocStore) : LoadResponse :=
  if req.method == "OPTIONS" then LoadResponse.preflight
  else if !(req.method == "GET") then LoadResponse.methodNotAllowed
  else
    let t := jsStrOr req.queryType "flowsheet"
    let user :=
      match verifyAuth env req.authorization with
      | some u => some u
      | none => jsStrTruthy req.queryUserId
    match user with
    | none => LoadResponse.unauthorized
    | some u =>
      if !(validTypes.contains t) then LoadResponse.badType
      else
        match db.filter (fun r => r.type_ == t && r.user_id == u) with
        | [r] => LoadResponse.okData r.data
        | _ => LoadResponse.okEmpty

/-! ### Concrete scenarios used by the claim theorems -/

/-- An identity provider knowing two users, alice and bob. -/
def demoEnv : AuthEnv :=
  ⟨fun t => if t = "tokA" then some "alice" else if t = "tokB" then some "bob" else none⟩

/-- A store with no rows. -/
def emptyStore : Store :=
  { checklists := [], folders := [], items := [], completions := [], appData := [], nextId := 1 }

/-- A store in which bob owns checklist 1 with item 2, checked off today
(2025-10-11). -/
def bobStore : Store :=
  { checklists := [⟨1, "bob", "B", 0, some "General"⟩]
    folders := []
    items := [⟨2, 1, none, "x", none, 0⟩]
    completions := [⟨1, 2, "2025-10-11", "t0"⟩]
    appData := []
    nextId := 3 }

/-- Alice's save request: an empty checklist array together with an
(empty) completions payload. -/
def aliceEmptySaveReq : ChkRequest :=
  { method := "POST", authorization := some "Bearer tokA", queryUserId := none, bodyUserId := none,
    action := none, backupId := none, checklists := some [], completions := some [] }

/-- Claim C1 (code bug): the deletion of today's completion rows performed
by a save with a completions payload is filtered only by date
(`.eq('completion_date', today)`), not by user.  Here alice's save (an
empty checklist array with an empty completions object) is authenticated
as alice, bob's completion row for today exists beforehand and belongs to
a checklist of bob — yet after alice's save the row is gone, so completion
rows of other users' checklists are not unchanged. -/
theorem c1_cross_user_completion_deleted :
    authUserId demoEnv aliceEmptySaveReq = some "alice"
    ∧ (⟨1, 2, "2025-10-11", "t0"⟩ : CompletionRow) ∈ bobStore.completions
    ∧ (∃ c ∈ bobStore.checklists, c.user_id = "bob" ∧ c.id = 1)
    ∧ (checklistsHandler demoEnv "2025-10-11" "T1" 100 aliceEmptySaveReq bobStore).1 = ChkResponse.saved
    ∧ (checklistsHandler demoEnv "2025-10-11" "T1" 100 aliceEmptySaveReq bobStore).2.completions = [] := by
  decide

/-- A store in which alice owns checklist 1 (role Tech) with item 2. -/
def aliceStore : Store :=
  { checklists := [⟨1, "alice", "AM", 0, some "Tech"⟩]
    folders := []
    items := [⟨2, 1, none, "BP", none, 0⟩]
    completions := []
    appData := []
    nextId := 3 }

/-- Alice's save request carrying her current checklist document together
with today's completions for it: item 2 of checklist 1 is checked off
(the ids are exactly the ids the store holds for her rows). -/
def aliceSaveWithCompReq : ChkRequest :=
  { method := "POST", authorization := some "Bearer tokA", queryUserId := none, bodyUserId := none,
    action := none, backupId := none,
    checklists := some [⟨"AM", some "Tech", none, some [⟨"BP", none, none, none⟩]⟩],
    completions := some [("2025-10-11_1", ⟨some [2], some "ts"⟩)] }

/-- Claim C2 (code bug): saving completions for today and re-loading the
same day does not reproduce the saved completed-item-id set.  The save
deletes and re-inserts alice's checklist and item under fresh ids, then
tries to insert the completion rows under the pre-save ids parsed from
the payload keys; that insert violates the foreign keys (the old rows are
gone) and the error is swallowed, so the same-day load returns an empty
completions mapping instead of the saved set `[2]`. -/
theorem c2_roundtrip_loses_completions :
    (aliceSaveWithCompReq.completions = some [("2025-10-11_1", ⟨some [2], some "ts"⟩)])
    ∧ (∃ i ∈ aliceStore.items, i.id = 2 ∧ i.checklist_id = 1)
    ∧ (checklistsHandler demoEnv "2025-10-11" "T1" 100 aliceSaveWithCompReq aliceStore).1 = ChkResponse.saved
    ∧ (loadOp "alice" "2025-10-11"
        (checklistsHandler demoEnv "2025-10-11" "T1" 100 aliceSaveWithCompReq aliceStore).2).2 = []
    ∧ ((loadOp "alice" "2025-10-11"
        (checklistsHandler demoEnv "2025-10-11" "T1" 100 aliceSaveWithCompReq aliceStore).2).1.map
          (fun c => c.items.map (fun i => i.id))) = [[5]] := by
  decide

/-- A store in which alice owns checklist 1 with item 2, checked off on a
prior date (2025-01-01, while today is 2025-10-11). -/
def alicePriorStore : Store :=
  { checklists := [⟨1, "alice", "AM", 0, some "Tech"⟩]
    folders := []
    items := [⟨2, 1, none, "BP", none, 0⟩]
    completions := [⟨1, 2, "2025-01-01", "t0"⟩]
    appData := []
    nextId := 3 }

/-- Alice's save request: an empty checklist array, no completions payload
at all. -/
def aliceEmptySaveNoCompReq : ChkRequest :=
  { method := "POST", authorization := some "Bearer tokA", queryUserId := none, bodyUserId := none,
    action := none, backupId := none, checklists := some [], completions := none }

/-- Claim C3 (code bug): completion rows of the saving user dated before
today are not preserved by a save.  The replace-all delete of the user's
checklists cascades (per the schema's `ON DELETE CASCADE` on
`checklist_completions.checklist_id` and `item_id`) to every completion
row of those checklists regardless of date: alice's completion dated
2025-01-01 is gone after a save on 2025-10-11 that carries no completions
payload at all. -/
theorem c3_save_deletes_prior_date_completions :
    (⟨1, 2, "2025-01-01", "t0"⟩ : CompletionRow) ∈ alicePriorStore.completions
    ∧ ("2025-01-01" : String) ≠ "2025-10-11"
    ∧ (checklistsHandler demoEnv "2025-10-11" "T1" 100 aliceEmptySaveNoCompReq alicePriorStore).1 = ChkResponse.saved
    ∧ (checklistsHandler demoEnv "2025-10-11" "T1" 100 aliceEmptySaveNoCompReq alicePriorStore).2.completions = [] := by
  decide

/-- A GET request with no Authorization header at all, carrying only the
deprecated `user_id` query parameter. -/
def userIdParamReq : ChkRequest :=
  { method := "GET", authorization := none, queryUserId := some "alice", bodyUserId := none,
    action := none, backupId := none, checklists := none, completions := none }

/-- Claim C4, counterexample: a request with no valid bearer credential is
not necessarily answered 401 — the deprecated `user_id` parameter fallback
authenticates it, and the handler proceeds to read the store. -/
theorem c4_counterexample_userid_fallback :
    verifyAuth demoEnv userIdParamReq.authorization = none
    ∧ (checklistsHandler demoEnv "2025-10-11" "T1" 100 userIdParamReq emptyStore).1 = ChkResponse.loaded [] []
    ∧ ¬ (checklistsHandler demoEnv "2025-10-11" "T1" 100 userIdParamReq emptyStore).1.status = 401 := by
  decide

/-- Claim C4 as amended: a non-preflight request that carries neither a
valid bearer credential nor a (truthy) `user_id` query/body parameter is
answered 401, the store is left unchanged, and the response is computed
without consulting the store (it is the same for every store). -/
theorem c4_unauthenticated_rejected (env : AuthEnv) (today nowIso : String) (nowMs : Nat)
    (req : ChkRequest) (st : Store)
    (hm : ¬ req.method = "OPTIONS")
    (hauth : verifyAuth env req.authorization = none)
    (hq : jsStrTruthy req.queryUserId = none)
    (hb : jsStrTruthy req.bodyUserId = none) :
    (checklistsHandler env today nowIso nowMs req st).1 = ChkResponse.unauthorized
    ∧ (checklistsHandler env today nowIso nowMs req st).1.status = 401
    ∧ (checklistsHandler env today nowIso nowMs req st).2 = st := by
  have hm' : (req.method == "OPTIONS") = false := by
    simpa using hm
  have ha : authUserId env req = none := by
    unfold authUserId
    rw [hauth, hq, hb]
  unfold checklistsHandler
  rw [hm', ha]
  exact ⟨rfl, rfl, rfl⟩

/-- Claim C4 witness: the amended theorem applied to a concrete
unauthenticated POST against a concrete store. -/
theorem c4_unauthenticated_rejected_witness :
    (checklistsHandler demoEnv "2025-10-11" "T1" 100
      ⟨"POST", some "Bearer nope", none, none, none, none, some [], none⟩ bobStore).1 = ChkResponse.unauthorized
    ∧ (checklistsHandler demoEnv "2025-10-11" "T1" 100
      ⟨"POST", some "Bearer nope", none, none, none, none, some [], none⟩ bobStore).1.status = 401
    ∧ (checklistsHandler demoEnv "2025-10-11" "T1" 100
      ⟨"POST", some "Bearer nope", none, none, none, none, some [], none⟩ bobStore).2 = bobStore :=
  c4_unauthenticated_rejected demoEnv "2025-10-11" "T1" 100
    ⟨"POST", some "Bearer nope", none, none, none, none, some [], none⟩ bobStore
    (by decide) (by decide) (by decide) (by decide)

/-- A save input whose single checklist lists its folders out of
`order`-field order: first the folder labelled order 5, then order 1. -/
def reorderedFoldersInput : List ClientChecklist :=
  [⟨"L", some "R", some [⟨1, "B", some 5⟩, ⟨2, "A", some 1⟩], none⟩]

/-- Claim C5, counterexample: `Load(Save(U, C))` does not return folders
in the order of `C` — the load path re-sorts folders by their stored
`sort_order`, so the input sequence B(order 5), A(order 1) comes back as
A, B. -/
theorem c5_counterexample_folder_reorder :
    (reorderedFoldersInput.map (fun c => (c.folders.getD []).map (fun f => f.name))) = [["B", "A"]]
    ∧ ((loadOp "alice" "2025-10-11"
        (saveOp "alice" "2025-10-11" "T1" 100 reorderedFoldersInput none emptyStore).2).1.map
          (fun c => c.folders.map (fun f => f.name))) = [["A", "B"]] := by
  decide

/-- Claim C7: restoring from a backup id that does not belong to the
requesting user — in particular one belonging to another user — is
answered as not-found (404), and the whole store (checklists, folders,
items, completions and backups alike) is left unchanged. -/
theorem c7_restore_foreign_backup_not_found (u : String) (nowMs backupId : Nat) (st : Store)
    (hb : ∀ b ∈ st.appData, ¬(b.id = backupId ∧ b.user_id = u)) :
    (restoreOp u nowMs backupId st).1 = ChkResponse.notFound "Backup not found"
    ∧ (restoreOp u nowMs backupId st).1.status = 404
    ∧ (restoreOp u nowMs backupId st).2 = st := by
  have hfil : st.appData.filter (fun b => b.id == backupId && b.user_id == u) = [] := by
    rw [List.filter_eq_nil_iff]
    intro b hbmem
    have := hb b hbmem
    simp only [Bool.and_eq_true, beq_iff_eq]
    intro hcontra
    exact this ⟨hcontra.1, hcontra.2⟩
  unfold restoreOp
  rw [hfil]
  exact ⟨rfl, rfl, rfl⟩

/-- A store in which bob owns a backup row with id 7 (and alice owns
nothing). -/
def bobBackupStore : Store :=
  { checklists := [⟨1, "bob", "B", 0, some "General"⟩]
    folders := []
    items := []
    completions := []
    appData := [⟨7, "checklist_backup_50", "bob", ⟨[⟨1, "bob", "B", 0, some "General"⟩], [], [], 50⟩, 50⟩]
    nextId := 8 }

/-- Claim C7 witness: alice asking to restore bob's backup 7 gets 404 and
changes nothing. -/
theorem c7_restore_foreign_backup_not_found_witness :
    (restoreOp "alice" 100 7 bobBackupStore).1 = ChkResponse.notFound "Backup not found"
    ∧ (restoreOp "alice" 100 7 bobBackupStore).1.status = 404
    ∧ (restoreOp "alice" 100 7 bobBackupStore).2 = bobBackupStore :=
  c7_restore_foreign_backup_not_found "alice" 100 7 bobBackupStore (by decide)

/-- Claim C9: loading a document of a valid type for an authenticated user
when no row exists for that (type, user) pair yields the success response
carrying an empty object (HTTP 200, `success: true`), not an error
response. -/
theorem c9_load_missing_document_empty (env : AuthEnv) (req : LoadRequest) (db : DocStore)
    (u : String)
    (hm : req.method = "GET")
    (hu : verifyAuth env req.authorization = some u)
    (ht : validTypes.contains (jsStrOr req.queryType "flowsheet") = true)
    (hrow : ∀ r ∈ db, ¬(r.type_ = jsStrOr req.queryType "flowsheet" ∧ r.user_id = u)) :
    loadDocumentHandler env req db = LoadResponse.okEmpty
    ∧ LoadResponse.status (loadDocumentHandler env req db) = 200
    ∧ LoadResponse.success (loadDocumentHandler env req db) = true := by
  have hfil : db.filter (fun r => r.type_ == jsStrOr req.queryType "flowsheet" && r.user_id == u) = [] := by
    rw [List.filter_eq_nil_iff]
    intro r hrmem
    have := hrow r hrmem
    simp only [Bool.and_eq_true, beq_iff_eq]
    intro hcontra
    exact this ⟨hcontra.1, hcontra.2⟩
  have h1 : loadDocumentHandler env req db = LoadResponse.okEmpty := by
    unfold loadDocumentHandler
    rw [hm, hu]
    dsimp only
    rw [ht, hfil]
    rfl
  exact ⟨h1, by rw [h1]; rfl, by rw [h1]; rfl⟩

/-- Claim C9 witness: alice loading type `snippets` from a table that
holds only a bob-owned `flowsheet` row gets the empty-object success. -/
theorem c9_load_missing_document_empty_witness :
    loadDocumentHandler demoEnv ⟨"GET", some "Bearer tokA", some "snippets", none⟩
      [⟨"flowsheet", "bob", "blob", "t"⟩] = LoadResponse.okEmpty
    ∧ LoadResponse.status (loadDocumentHandler demoEnv ⟨"GET", some "Bearer tokA", some "snippets", none⟩
      [⟨"flowsheet", "bob", "blob", "t"⟩]) = 200
    ∧ LoadResponse.success (loadDocumentHandler demoEnv ⟨"GET", some "Bearer tokA", some "snippets", none⟩
      [⟨"flowsheet", "bob", "blob", "t"⟩]) = true :=
  c9_load_missing_document_empty demoEnv ⟨"GET", some "Bearer tokA", some "snippets", none⟩
    [⟨"flowsheet", "bob", "blob", "t"⟩] "alice" rfl (by decide) (by decide) (by decide)

/-! ### Backup-ring lemmas (claim C6) -/

/-- Number of backup entries the store holds for a user. -/
def backupCount (u : String) (st : Store) : Nat :=
  (st.appData.filter (isUserBackup u)).length

theorem isPrefixOf_append_self (l t : List Char) : l.isPrefixOf (l ++ t) = true := by
  induction l with
  | nil => simp [List.isPrefixOf]
  | cons c cs ih => simp [List.isPrefixOf, ih]

theorem strStartsWith_append (p s : String) : strStartsWith (p ++ s) p = true := by
  unfold strStartsWith
  rw [String.data_append]
  exact isPrefixOf_append_self p.data s.data

theorem insertFolders_appData (clId : Nat) (fs : List ClientFolder) (st : Store) (m : List (Nat × Nat)) :
    (insertFolders clId fs st m).1.appData = st.appData := by
  induction fs generalizing st m with
  | nil => rfl
  | cons f rest ih => exact ih _ _

theorem insertItems_appData (clId : Nat) (m : List (Nat × Nat)) (its : List ClientItem) (st : Store) :
    (insertItems clId m its st).appData = st.appData := by
  induction its generalizing st with
  | nil => rfl
  | cons it rest ih => exact ih _

theorem saveLoop_appData (u : String) (cls : List ClientChecklist) (i : Nat) (st : Store) :
    (saveLoop u cls i st).appData = st.appData := by
  induction cls generalizing i st with
  | nil => rfl
  | cons c rest ih =>
    show (saveLoop u rest (i + 1) _).appData = st.appData
    rw [ih]
    rw [insertItems_appData, insertFolders_appData]

theorem restoreFolders_appData (clId : Nat) (fs : List FolderRow) (st : Store) (m : List (Nat × Nat)) :
    (restoreFolders clId fs st m).1.appData = st.appData := by
  induction fs generalizing st m with
  | nil => rfl
  | cons f rest ih => exact ih _ _

theorem restoreItems_appData (clId : Nat) (m : List (Nat × Nat)) (its : List ItemRow) (st : Store) :
    (restoreItems clId m its st).appData = st.appData := by
  induction its generalizing st with
  | nil => rfl
  | cons it rest ih => exact ih _

theorem restoreLoop_appData (u : String) (data : BackupData) (cls : List ChecklistRow) (st : Store) :
    (restoreLoop u data cls st).appData = st.appData := by
  induction cls generalizing st with
  | nil => rfl
  | cons c rest ih =>
    show (restoreLoop u data rest _).appData = st.appData
    rw [ih]
    rw [restoreItems_appData, restoreFolders_appData]

theorem cascadeDelete_appData (u : String) (st : Store) :
    (cascadeDeleteChecklists u st).appData = st.appData := rfl

theorem saveCompletionsStep_appData (today nowIso : String) (comp : CompPayload) (st : Store) :
    (saveCompletionsStep today nowIso comp st).appData = st.appData := by
  unfold saveCompletionsStep
  dsimp only
  split
  · rfl
  · split <;> rfl

theorem cleanup_count_le (u : String) (l : List AppDataRow) (toDel : List Nat)
    (hdel : ∀ b ∈ sortDescByKeyNat (fun b => b.updated_at) (l.filter (isUserBackup u)) |>.drop MAX_BACKUPS,
      b.id ∈ toDel) :
    ((l.filter (fun b => !(toDel.contains b.id))).filter (isUserBackup u)).length ≤ MAX_BACKUPS := by
  have hcomm : (l.filter (fun b => !(toDel.contains b.id))).filter (isUserBackup u)
      = ((l.filter (isUserBackup u)).filter (fun b => !(toDel.contains b.id))) := by
    rw [List.filter_filter, List.filter_filter]
    congr 1
    funext b
    exact Bool.and_comm _ _
  rw [hcomm]
  set UB := l.filter (isUserBackup u) with hUB
  have hperm : UB.Perm (sortDescByKeyNat (fun b => b.updated_at) UB) :=
    (List.perm_insertionSort _ UB).symm
  set sorted := sortDescByKeyNat (fun b => b.updated_at) UB with hsorted
  have hlen : (UB.filter (fun b => !(toDel.contains b.id))).length
      = (sorted.filter (fun b => !(toDel.contains b.id))).length :=
    (hperm.filter _).length_eq
  rw [hlen]
  have hsplit : sorted = sorted.take MAX_BACKUPS ++ sorted.drop MAX_BACKUPS :=
    (List.take_append_drop _ _).symm
  rw [hsplit, List.filter_append, List.length_append]
  have hdropnil : (sorted.drop MAX_BACKUPS).filter (fun b => !(toDel.contains b.id)) = [] := by
    rw [List.filter_eq_nil_iff]
    intro b hb
    have hid : b.id ∈ toDel := hdel b hb
    simp [hid]
  rw [hdropnil]
  simp only [List.length_nil, Nat.add_zero]
  calc ((sorted.take MAX_BACKUPS).filter (fun b => !(toDel.contains b.id))).length
      ≤ (sorted.take MAX_BACKUPS).length := List.length_filter_le _ _
    _ ≤ MAX_BACKUPS := List.length_take_le _ _

theorem backupCount_eq_of_appData_eq (u : String) (st st' : Store)
    (h : st.appData = st'.appData) : backupCount u st = backupCount u st' := by
  unfold backupCount
  rw [h]

theorem isUserBackup_ne_actor (u actor : String) (hne : ¬ u = actor) (b : AppDataRow)
    (hb : b.user_id = actor) : isUserBackup u b = false := by
  unfold isUserBackup
  rw [hb]
  have : (actor == u) = false := by
    simp only [beq_eq_false_iff_ne, ne_eq]
    intro h
    exact hne h.symm
  rw [this, Bool.false_and]

theorem backupCount_backupCurrent_le (nowMs : Nat) (u actor : String) (st : Store)
    (h5 : backupCount u st ≤ MAX_BACKUPS) :
    backupCount u (backupCurrentChecklists nowMs actor st) ≤ MAX_BACKUPS := by
  unfold backupCurrentChecklists
  dsimp only
  split
  · exact h5
  · -- the snapshot row that gets inserted
    set row : AppDataRow := snapshotRow nowMs actor st with hrow
    have hcount1 : backupCount u { st with appData := st.appData ++ [row], nextId := st.nextId + 1 }
        ≤ backupCount u st + (if isUserBackup u row then 1 else 0) := by
      unfold backupCount
      dsimp only
      rw [List.filter_append, List.length_append]
      cases h : isUserBackup u row <;> simp [List.filter, h]
    split
    · -- cleanup branch: apply the take/drop counting argument or monotonicity
      by_cases hu : u = actor
      · subst hu
        apply cleanup_count_le
        intro b hb
        exact List.mem_map_of_mem _ hb
      · -- another user's count only shrinks
        have hsub : ((({ st with appData := st.appData ++ [row], nextId := st.nextId + 1 } : Store).appData.filter
            (fun b => !(((sortDescByKeyNat (fun b => b.updated_at)
              ((st.appData ++ [row]).filter (isUserBackup actor))).drop MAX_BACKUPS).map (fun b => b.id)).contains b.id)).filter
              (isUserBackup u)).length
            ≤ (((st.appData ++ [row]) : List AppDataRow).filter (isUserBackup u)).length := by
          apply List.Sublist.length_le
          apply List.Sublist.filter
          exact List.filter_sublist _
        unfold backupCount
        dsimp only
        refine le_trans hsub ?_
        rw [List.filter_append, List.length_append]
        have : isUserBackup u row = false := isUserBackup_ne_actor u actor hu row rfl
        simp only [List.filter, this, List.length_nil]
        exact h5
    · -- no cleanup: the total number of the actor's backups already fits
      rename_i hle
      by_cases hu : u = actor
      · subst hu
        have hlen : backupCount u { st with appData := st.appData ++ [row], nextId := st.nextId + 1 }
            = ((sortDescByKeyNat (fun b => b.updated_at)
                ((st.appData ++ [row]).filter (isUserBackup u))).length) := by
          unfold backupCount
          dsimp only
          exact (List.perm_insertionSort _ _).symm.length_eq
        rw [hlen]
        omega
      · refine le_trans hcount1 ?_
        have : isUserBackup u row = false := isUserBackup_ne_actor u actor hu row rfl
        rw [this]
        simpa using h5

theorem backupCount_saveOp_le (u actor today nowIso : String) (nowMs : Nat)
    (cls : List ClientChecklist) (comp : Option CompPayload) (st : Store)
    (h5 : backupCount u st ≤ MAX_BACKUPS) :
    backupCount u (saveOp actor today nowIso nowMs cls comp st).2 ≤ MAX_BACKUPS := by
  unfold saveOp
  dsimp only
  have hstep : backupCount u (backupCurrentChecklists nowMs actor st) ≤ MAX_BACKUPS :=
    backupCount_backupCurrent_le nowMs u actor st h5
  cases comp with
  | none =>
    dsimp only
    rw [backupCount_eq_of_appData_eq u _ (backupCurrentChecklists nowMs actor st)
      (by rw [saveLoop_appData, cascadeDelete_appData])]
    exact hstep
  | some m =>
    dsimp only
    rw [backupCount_eq_of_appData_eq u _ (backupCurrentChecklists nowMs actor st)
      (by rw [saveCompletionsStep_appData, saveLoop_appData, cascadeDelete_appData])]
    exact hstep

theorem backupCount_restoreOp_le (u actor : String) (nowMs backupId : Nat) (st : Store)
    (h5 : backupCount u st ≤ MAX_BACKUPS) :
    backupCount u (restoreOp actor nowMs backupId st).2 ≤ MAX_BACKUPS := by
  unfold restoreOp
  split
  · dsimp only
    rw [backupCount_eq_of_appData_eq u _ (backupCurrentChecklists nowMs actor st)
      (by rw [restoreLoop_appData, cascadeDelete_appData])]
    exact backupCount_backupCurrent_le nowMs u actor st h5
  · exact h5

theorem backupCount_handler_le (env : AuthEnv) (today nowIso : String) (nowMs : Nat)
    (req : ChkRequest) (u : String) (st : Store)
    (h5 : backupCount u st ≤ MAX_BACKUPS) :
    backupCount u (checklistsHandler env today nowIso nowMs req st).2 ≤ MAX_BACKUPS := by
  unfold checklistsHandler
  split
  · exact h5
  · split
    · exact h5
    · rename_i actor _
      split
      · exact h5
      · split
        · split
          · exact h5
          · split
            · split
              · exact h5
              · exact backupCount_restoreOp_le u actor nowMs _ st h5
            · split
              · exact h5
              · exact backupCount_saveOp_le u actor today nowIso nowMs _ req.completions st h5
        · exact h5

theorem mem_sortDescByKeyNat {α : Type} (key : α → Nat) (l : List α) (x : α) :
    x ∈ sortDescByKeyNat key l ↔ x ∈ l := by
  unfold sortDescByKeyNat
  exact (List.perm_insertionSort _ l).mem_iff

theorem sortDesc_drop_eq_oldest (l : List AppDataRow) (b : AppDataRow)
    (hlen : l.length = MAX_BACKUPS + 1)
    (hnd : l.Nodup)
    (hb : b ∈ l)
    (hmin : ∀ x ∈ l, ¬ x = b → b.updated_at < x.updated_at) :
    (sortDescByKeyNat (fun x => x.updated_at) l).drop MAX_BACKUPS = [b] := by
  have htot : IsTotal AppDataRow (fun a c => c.updated_at ≤ a.updated_at) :=
    ⟨fun a c => Nat.le_total c.updated_at a.updated_at⟩
  have htrans : IsTrans AppDataRow (fun a c => c.updated_at ≤ a.updated_at) :=
    ⟨fun _ _ _ hab hbc => le_trans hbc hab⟩
  set L := sortDescByKeyNat (fun x => x.updated_at) l with hLdef
  have hLperm : L.Perm l := List.perm_insertionSort _ l
  have hLlen : L.length = MAX_BACKUPS + 1 := hLperm.length_eq.trans hlen
  have hsor : List.Sorted (fun a c => c.updated_at ≤ a.updated_at) L :=
    List.sorted_insertionSort _ l
  have hdl : (L.drop MAX_BACKUPS).length = 1 := by
    rw [List.length_drop, hLlen]
    omega
  obtain ⟨x, hx⟩ := List.length_eq_one.mp hdl
  have hbL : b ∈ L := hLperm.mem_iff.mpr hb
  have hsplit := List.take_append_drop MAX_BACKUPS L
  rcases (List.mem_append.mp (by rw [hsplit]; exact hbL)) with hbtake | hbdrop
  · -- b cannot sit among the five newest
    exfalso
    have hp : List.Pairwise (fun a c => c.updated_at ≤ a.updated_at)
        (L.take MAX_BACKUPS ++ L.drop MAX_BACKUPS) := by
      rw [hsplit]; exact hsor
    have hrel := (List.pairwise_append.mp hp).2.2
    have hxdrop : x ∈ L.drop MAX_BACKUPS := by rw [hx]; exact List.mem_singleton_self x
    have hrbx : x.updated_at ≤ b.updated_at := hrel b hbtake x hxdrop
    have hxL : x ∈ L := List.drop_subset _ _ hxdrop
    by_cases hxb : x = b
    · have hndL : L.Nodup := hLperm.symm.nodup hnd
      have hnda : (L.take MAX_BACKUPS ++ L.drop MAX_BACKUPS).Nodup := by
        rw [hsplit]; exact hndL
      have hdisj := (List.nodup_append.mp hnda).2.2
      exact hdisj hbtake (hxb ▸ hxdrop)
    · have hlt := hmin x (hLperm.subset hxL) hxb
      omega
  · have : b = x := by
      rw [hx] at hbdrop
      exact List.mem_singleton.mp hbdrop
    rw [hx, this]

theorem isUserBackup_snapshotRow (nowMs : Nat) (u : String) (st : Store) :
    isUserBackup u (snapshotRow nowMs u st) = true := by
  unfold isUserBackup snapshotRow
  dsimp only
  rw [beq_self_eq_true, strStartsWith_append, Bool.and_self]

theorem backup_evicts_oldest (nowMs : Nat) (u : String) (st : Store) (b : AppDataRow)
    (hidslt : ∀ x ∈ st.appData, x.id < st.nextId)
    (hnd : (st.appData.map (fun x => x.id)).Nodup)
    (hcl : ∃ c ∈ st.checklists, c.user_id = u)
    (hbmem : b ∈ st.appData) (hbu : isUserBackup u b = true)
    (hcnt : (st.appData.filter (isUserBackup u)).length = MAX_BACKUPS)
    (hmin : ∀ x ∈ st.appData, isUserBackup u x = true → ¬ x = b → b.updated_at < x.updated_at)
    (hnow : b.updated_at < nowMs) :
    backupCount u (backupCurrentChecklists nowMs u st) = MAX_BACKUPS
    ∧ b ∉ (backupCurrentChecklists nowMs u st).appData
    ∧ b.id ∉ (listBackupsOp u (backupCurrentChecklists nowMs u st)).map (fun s => s.id) := by
  set row := snapshotRow nowMs u st with hrowdef
  set B := st.appData.filter (isUserBackup u) with hBdef
  -- the filtered backup pool after the insert
  have hBfil : (st.appData ++ [row]).filter (isUserBackup u) = B ++ [row] := by
    rw [List.filter_append]
    congr 1
    simp [List.filter, isUserBackup_snapshotRow nowMs u st]
  -- distinct ids in the pool
  have hndB : ((B ++ [row]).map (fun x => x.id)).Nodup := by
    rw [List.map_append]
    rw [List.nodup_append]
    refine ⟨(hnd.sublist ((List.filter_sublist _).map _)), List.nodup_singleton _, ?_⟩
    intro a haB harow
    have hrowid : a = st.nextId := by
      simpa [hrowdef, snapshotRow] using harow
    obtain ⟨x, hxB, hxid⟩ := List.mem_map.mp haB
    have hxmem : x ∈ st.appData := List.mem_of_mem_filter hxB
    have := hidslt x hxmem
    omega
  have hndrows : (B ++ [row]).Nodup := List.Nodup.of_map _ hndB
  -- b is in the pool, and is strictly oldest there
  have hbB : b ∈ B := List.mem_filter.mpr ⟨hbmem, hbu⟩
  have hbrow : ¬ b = row := by
    intro h
    have h1 := hidslt b hbmem
    have h2 : b.id = st.nextId := by rw [h, hrowdef]; rfl
    omega
  have hminpool : ∀ x ∈ B ++ [row], ¬ x = b → b.updated_at < x.updated_at := by
    intro x hx hxb
    rcases List.mem_append.mp hx with hxB | hxrow
    · exact hmin x (List.mem_of_mem_filter hxB) (List.of_mem_filter hxB) hxb
    · have : x = row := List.mem_singleton.mp hxrow
      rw [this, hrowdef]
      exact hnow
  have hpoollen : (B ++ [row]).length = MAX_BACKUPS + 1 := by
    rw [List.length_append, hcnt]
    rfl
  -- the sorted pool drops exactly b
  have hdrop : (sortDescByKeyNat (fun x => x.updated_at) (B ++ [row])).drop MAX_BACKUPS = [b] :=
    sortDesc_drop_eq_oldest (B ++ [row]) b hpoollen hndrows (List.mem_append_left _ hbB) hminpool
  -- characterize the resulting store
  have hcond : MAX_BACKUPS < (sortDescByKeyNat (fun x => x.updated_at) (B ++ [row])).length := by
    have : (sortDescByKeyNat (fun x => x.updated_at) (B ++ [row])).length = MAX_BACKUPS + 1 :=
      (List.perm_insertionSort _ _).length_eq.trans hpoollen
    omega
  have hclempty : (st.checklists.filter (fun c => c.user_id == u)).isEmpty = false := by
    obtain ⟨c, hcmem, hcu⟩ := hcl
    have hcfil : c ∈ st.checklists.filter (fun c => c.user_id == u) :=
      List.mem_filter.mpr ⟨hcmem, by simp [hcu]⟩
    cases hfl : st.checklists.filter (fun c => c.user_id == u) with
    | nil => rw [hfl] at hcfil; cases hcfil
    | cons a as => rfl
  have hres : backupCurrentChecklists nowMs u st =
      { st with
        appData := (st.appData ++ [row]).filter (fun x => !(([b.id] : List Nat).contains x.id))
        nextId := st.nextId + 1 } := by
    unfold backupCurrentChecklists
    dsimp only
    rw [hclempty]
    simp only [Bool.false_eq_true, if_false]
    rw [hBfil, if_pos hcond, hdrop]
    rfl
  rw [hres]
  -- ids in the five newest differ from b.id
  set L := sortDescByKeyNat (fun x => x.updated_at) (B ++ [row]) with hLdef
  have hLperm : L.Perm (B ++ [row]) := List.perm_insertionSort _ _
  have hLlen : L.length = MAX_BACKUPS + 1 := hLperm.length_eq.trans hpoollen
  have hndLids : (L.map (fun x => x.id)).Nodup := ((hLperm.map _).nodup_iff).mpr hndB
  have hsplitL : L.take MAX_BACKUPS ++ L.drop MAX_BACKUPS = L := List.take_append_drop _ _
  have htakeids : ∀ x ∈ L.take MAX_BACKUPS, ¬ x.id = b.id := by
    intro x hx hxid
    have hnda : ((L.take MAX_BACKUPS ++ L.drop MAX_BACKUPS).map (fun x => x.id)).Nodup := by
      rw [hsplitL]; exact hndLids
    rw [List.map_append, List.nodup_append] at hnda
    have h1 : b.id ∈ (L.take MAX_BACKUPS).map (fun x => x.id) := by
      rw [← hxid]
      exact List.mem_map_of_mem _ hx
    have h2 : b.id ∈ (L.drop MAX_BACKUPS).map (fun x => x.id) := by
      rw [hdrop]
      exact List.mem_map_of_mem _ (List.mem_singleton_self b)
    exact hnda.2.2 h1 h2
  constructor
  · -- exactly five backups remain
    unfold backupCount
    dsimp only
    have hcomm : ((st.appData ++ [row]).filter (fun x => !(([b.id] : List Nat).contains x.id))).filter
        (isUserBackup u)
        = ((st.appData ++ [row]).filter (isUserBackup u)).filter
            (fun x => !(([b.id] : List Nat).contains x.id)) := by
      rw [List.filter_filter, List.filter_filter]
      congr 1
      funext x
      exact Bool.and_comm _ _
    rw [hcomm, hBfil]
    have hlenperm : ((B ++ [row]).filter (fun x => !(([b.id] : List Nat).contains x.id))).length
        = (L.filter (fun x => !(([b.id] : List Nat).contains x.id))).length :=
      (hLperm.filter _).length_eq.symm
    rw [hlenperm, ← hsplitL, List.filter_append, List.length_append, hdrop]
    have hfiltake : (L.take MAX_BACKUPS).filter (fun x => !(([b.id] : List Nat).contains x.id))
        = L.take MAX_BACKUPS := by
      rw [List.filter_eq_self]
      intro x hx
      have := htakeids x hx
      simp [List.contains_cons, this]
    have hfilb : ([b] : List AppDataRow).filter (fun x => !(([b.id] : List Nat).contains x.id)) = [] := by
      simp [List.filter, List.contains_cons]
    rw [hfiltake, hfilb, List.length_take, hLlen]
    simp only [List.length_nil]
    omega
  constructor
  · -- b itself is gone
    intro hbmem'
    have := List.of_mem_filter hbmem'
    simp [List.contains_cons] at this
  · -- and it is not listed any more
    intro hidmem
    obtain ⟨s, hs, hsid⟩ := List.mem_map.mp hidmem
    unfold listBackupsOp at hs
    obtain ⟨x, hx, hxs⟩ := List.mem_map.mp hs
    have hxsort : x ∈ sortDescByKeyNat (fun b => b.updated_at)
        (((st.appData ++ [row]).filter (fun x => !(([b.id] : List Nat).contains x.id))).filter
          (isUserBackup u)) := List.take_subset _ _ hx
    have hxfil : x ∈ ((st.appData ++ [row]).filter (fun x => !(([b.id] : List Nat).contains x.id))).filter
        (isUserBackup u) := (mem_sortDescByKeyNat _ _ _).mp hxsort
    have hxsurv : x ∈ (st.appData ++ [row]).filter (fun x => !(([b.id] : List Nat).contains x.id)) :=
      List.mem_of_mem_filter hxfil
    have hxne : (!(([b.id] : List Nat).contains x.id)) = true := (List.mem_filter.mp hxsurv).2
    have hxid : ¬ x.id = b.id := by
      simpa [List.contains_cons] using hxne
    have : s.id = x.id := by rw [← hxs]
    rw [this] at hsid
    exact hxid hsid

/-- One request context: identity provider, server clock values and the
request itself. -/
structure ReqCtx where
  env : AuthEnv
  today : String
  nowIso : String
  nowMs : Nat
  req : ChkRequest

/-- Apply a sequence of requests to the store, threading the state. -/
def applySeq : List ReqCtx → Store → Store
  | [], st => st
  | c :: rest, st => applySeq rest (checklistsHandler c.env c.today c.nowIso c.nowMs c.req st).2

/-- Claim C6: (1) across any sequence of requests — saves and restores
included — a user's backup count never exceeds the fixed capacity
`MAX_BACKUPS = 5`; (2) when a backup is created for a user who already
holds exactly 5 backups (with the evicted one strictly oldest by
timestamp), exactly 5 remain, the oldest row is gone from the store and
its id no longer appears in the `list_backups` listing. -/
theorem c6_backup_ring_bounded :
    (∀ (u : String) (ctxs : List ReqCtx) (st : Store),
      backupCount u st ≤ MAX_BACKUPS → backupCount u (applySeq ctxs st) ≤ MAX_BACKUPS)
    ∧ (∀ (nowMs : Nat) (u : String) (st : Store) (b : AppDataRow),
        (∀ x ∈ st.appData, x.id < st.nextId) →
        (st.appData.map (fun x => x.id)).Nodup →
        (∃ c ∈ st.checklists, c.user_id = u) →
        b ∈ st.appData →
        isUserBackup u b = true →
        (st.appData.filter (isUserBackup u)).length = MAX_BACKUPS →
        (∀ x ∈ st.appData, isUserBackup u x = true → ¬ x = b → b.updated_at < x.updated_at) →
        b.updated_at < nowMs →
        backupCount u (backupCurrentChecklists nowMs u st) = MAX_BACKUPS
        ∧ b ∉ (backupCurrentChecklists nowMs u st).appData
        ∧ b.id ∉ (listBackupsOp u (backupCurrentChecklists nowMs u st)).map (fun s => s.id)) := by
  constructor
  · intro u ctxs
    induction ctxs with
    | nil => intro st h5; exact h5
    | cons c rest ih =>
      intro st h5
      exact ih _ (backupCount_handler_le c.env c.today c.nowIso c.nowMs c.req u st h5)
  · intro nowMs u st b h1 h2 h3 h4 h5 h6 h7 h8
    exact backup_evicts_oldest nowMs u st b h1 h2 h3 h4 h5 h6 h7 h8

/-- A store in which alice owns one checklist and exactly five backups
with distinct timestamps 10 < 20 < 30 < 40 < 50. -/
def fiveBackupStore : Store :=
  { checklists := [⟨1, "alice", "AM", 0, some "Tech"⟩]
    folders := []
    items := []
    completions := []
    appData :=
      [⟨10, "checklist_backup_10", "alice", ⟨[], [], [], 10⟩, 10⟩,
       ⟨11, "checklist_backup_20", "alice", ⟨[], [], [], 20⟩, 20⟩,
       ⟨12, "checklist_backup_30", "alice", ⟨[], [], [], 30⟩, 30⟩,
       ⟨13, "checklist_backup_40", "alice", ⟨[], [], [], 40⟩, 40⟩,
       ⟨14, "checklist_backup_50", "alice", ⟨[], [], [], 50⟩, 50⟩]
    nextId := 15 }

/-- The oldest of the five backups in `fiveBackupStore`. -/
def oldestBackup : AppDataRow := ⟨10, "checklist_backup_10", "alice", ⟨[], [], [], 10⟩, 10⟩

/-- Claim C6 witness: both parts of the theorem applied at concrete
inputs — two saves starting from alice's one-checklist store, and a
backup creation on top of exactly five existing backups. -/
theorem c6_backup_ring_bounded_witness :
    backupCount "alice"
      (applySeq [⟨demoEnv, "2025-10-11", "T1", 100, aliceSaveWithCompReq⟩,
                 ⟨demoEnv, "2025-10-11", "T2", 101, aliceEmptySaveReq⟩] aliceStore) ≤ MAX_BACKUPS
    ∧ (backupCount "alice" (backupCurrentChecklists 100 "alice" fiveBackupStore) = MAX_BACKUPS
       ∧ oldestBackup ∉ (backupCurrentChecklists 100 "alice" fiveBackupStore).appData
       ∧ oldestBackup.id ∉
          (listBackupsOp "alice" (backupCurrentChecklists 100 "alice" fiveBackupStore)).map
            (fun s => s.id)) :=
  ⟨c6_backup_ring_bounded.1 "alice"
      [⟨demoEnv, "2025-10-11", "T1", 100, aliceSaveWithCompReq⟩,
       ⟨demoEnv, "2025-10-11", "T2", 101, aliceEmptySaveReq⟩] aliceStore (by decide),
   c6_backup_ring_bounded.2 100 "alice" fiveBackupStore oldestBackup
     (by decide) (by decide) (by decide) (by decide) (by decide) (by decide) (by decide) (by decide)⟩

/-! ### Closed-form characterization of the save insert loop
(claims C5, C8, C10) -/

/-- The folder rows inserted for one checklist: ids assigned sequentially
from `n`. -/
def folderRowsOf (clId n : Nat) : List ClientFolder → List FolderRow
  | [] => []
  | f :: rest => ⟨n, clId, f.name, jsNatOr f.order 0⟩ :: folderRowsOf clId (n + 1) rest

/-- The client-local-id map built while inserting folders (newest entry in
front, mirroring `insertFolders`). -/
def folderMapOf (n : Nat) : List ClientFolder → List (Nat × Nat) → List (Nat × Nat)
  | [], acc => acc
  | f :: rest, acc => folderMapOf (n + 1) rest ((f.id, n) :: acc)

/-- The item rows inserted for one checklist: ids assigned sequentially
from `n`, folder references translated through the map. -/
def itemRowsOf (clId : Nat) (m : List (Nat × Nat)) (n : Nat) : List ClientItem → List ItemRow
  | [] => []
  | it :: rest =>
    ⟨n, clId, clientFolderRef m it.folderId, it.text, jsStrOrNull it.url, jsNatOr it.order 0⟩
      :: itemRowsOf clId m (n + 1) rest

/-- All rows produced by the save loop for one checklist. -/
abbrev SavedEntry := ChecklistRow × List FolderRow × List ItemRow

/-- Closed form of the save loop starting at array index `i` with fresh-id
counter `n`: the per-checklist entries and the final counter. -/
def savedEntries (u : String) : List ClientChecklist → Nat → Nat → List SavedEntry × Nat
  | [], _, n => ([], n)
  | c :: rest, i, n =>
    let clRow : ChecklistRow := ⟨n, u, c.name, i, some (jsStrOr c.position "General")⟩
    let fs := c.folders.getD []
    let frows := folderRowsOf n (n + 1) fs
    let m := folderMapOf (n + 1) fs []
    let irows := itemRowsOf n m (n + 1 + fs.length) (c.items.getD [])
    let tail := savedEntries u rest (i + 1) (n + 1 + fs.length + (c.items.getD []).length)
    ((clRow, frows, irows) :: tail.1, tail.2)

theorem insertFolders_spec (clId : Nat) (fs : List ClientFolder) (st : Store) (m : List (Nat × Nat)) :
    insertFolders clId fs st m =
      ({ st with folders := st.folders ++ folderRowsOf clId st.nextId fs
                 nextId := st.nextId + fs.length },
       folderMapOf st.nextId fs m) := by
  induction fs generalizing st m with
  | nil => simp [insertFolders, folderRowsOf, folderMapOf]
  | cons f rest ih =>
    show insertFolders clId rest _ _ = _
    rw [ih]
    simp only [folderRowsOf, folderMapOf, List.append_assoc, List.singleton_append, List.length_cons]
    have hn : st.nextId + 1 + rest.length = st.nextId + (rest.length + 1) := by omega
    rw [hn]

theorem insertItems_spec (clId : Nat) (m : List (Nat × Nat)) (its : List ClientItem) (st : Store) :
    insertItems clId m its st =
      { st with items := st.items ++ itemRowsOf clId m st.nextId its
                nextId := st.nextId + its.length } := by
  induction its generalizing st with
  | nil => simp [insertItems, itemRowsOf]
  | cons it rest ih =>
    show insertItems clId m rest _ = _
    rw [ih]
    simp only [itemRowsOf, List.append_assoc, List.singleton_append, List.length_cons]
    have hn : st.nextId + 1 + rest.length = st.nextId + (rest.length + 1) := by omega
    rw [hn]

theorem saveLoop_spec (u : String) (cls : List ClientChecklist) (i : Nat) (st : Store) :
    saveLoop u cls i st =
      { st with
        checklists := st.checklists ++ ((savedEntries u cls i st.nextId).1.map (fun e => e.1))
        folders := st.folders ++ ((savedEntries u cls i st.nextId).1.map (fun e => e.2.1)).flatten
        items := st.items ++ ((savedEntries u cls i st.nextId).1.map (fun e => e.2.2)).flatten
        nextId := (savedEntries u cls i st.nextId).2 } := by
  induction cls generalizing i st with
  | nil => simp [saveLoop, savedEntries]
  | cons c rest ih =>
    show saveLoop u rest (i + 1)
        (insertItems _ (insertFolders _ (c.folders.getD []) _ []).2 (c.items.getD [])
          (insertFolders _ (c.folders.getD []) _ []).1) = _
    rw [insertFolders_spec, insertItems_spec]
    dsimp only
    rw [ih]
    simp only [savedEntries, List.map_cons, List.flatten_cons]
    simp [List.append_assoc]

theorem folderRowsOf_facts (clId : Nat) (fs : List ClientFolder) (n : Nat) :
    ∀ f ∈ folderRowsOf clId n fs, f.checklist_id = clId ∧ n ≤ f.id := by
  induction fs generalizing n with
  | nil => intro f hf; cases hf
  | cons c rest ih =>
    intro f hf
    rcases List.mem_cons.mp hf with rfl | hf
    · exact ⟨rfl, Nat.le_refl _⟩
    · obtain ⟨h1, h2⟩ := ih (n + 1) f hf
      exact ⟨h1, by omega⟩

theorem itemRowsOf_facts (clId : Nat) (m : List (Nat × Nat)) (its : List ClientItem) (n : Nat) :
    ∀ r ∈ itemRowsOf clId m n its, r.checklist_id = clId ∧ n ≤ r.id := by
  induction its generalizing n with
  | nil => intro r hr; cases hr
  | cons c rest ih =>
    intro r hr
    rcases List.mem_cons.mp hr with rfl | hr
    · exact ⟨rfl, Nat.le_refl _⟩
    · obtain ⟨h1, h2⟩ := ih (n + 1) r hr
      exact ⟨h1, by omega⟩

theorem folderRowsOf_getElem (clId : Nat) (fs : List ClientFolder) (n s : Nat) :
    (folderRowsOf clId n fs)[s]?
      = (fs[s]?).map (fun f =>
          (⟨n + s, clId, f.name, jsNatOr f.order 0⟩ : FolderRow)) := by
  induction fs generalizing n s with
  | nil => simp [folderRowsOf]
  | cons f rest ih =>
    cases s with
    | zero => simp [folderRowsOf]
    | succ s =>
      simp only [folderRowsOf, List.getElem?_cons_succ, ih (n + 1) s]
      have : n + 1 + s = n + (s + 1) := by omega
      rw [this]

theorem itemRowsOf_getElem (clId : Nat) (m : List (Nat × Nat)) (its : List ClientItem) (n s : Nat) :
    (itemRowsOf clId m n its)[s]?
      = (its[s]?).map (fun it =>
          (⟨n + s, clId, clientFolderRef m it.folderId, it.text, jsStrOrNull it.url,
            jsNatOr it.order 0⟩ : ItemRow)) := by
  induction its generalizing n s with
  | nil => simp [itemRowsOf]
  | cons it rest ih =>
    cases s with
    | zero => simp [itemRowsOf]
    | succ s =>
      simp only [itemRowsOf, List.getElem?_cons_succ, ih (n + 1) s]
      have : n + 1 + s = n + (s + 1) := by omega
      rw [this]

theorem folderRowsOf_length (clId : Nat) (fs : List ClientFolder) (n : Nat) :
    (folderRowsOf clId n fs).length = fs.length := by
  induction fs generalizing n with
  | nil => rfl
  | cons f rest ih => simp [folderRowsOf, ih]

theorem itemRowsOf_length (clId : Nat) (m : List (Nat × Nat)) (its : List ClientItem) (n : Nat) :
    (itemRowsOf clId m n its).length = its.length := by
  induction its generalizing n with
  | nil => rfl
  | cons it rest ih => simp [itemRowsOf, ih]

/-- The 0-based position of the last folder of the list carrying the given
client-local id — the slot the server's `folderIdMap` resolves a folder
reference to (later duplicates overwrite earlier ones).  This is the
client-side description used to state the round-trip property. -/
def lastSlot : List ClientFolder → Nat → Option Nat
  | [], _ => none
  | f :: rest, v =>
    match lastSlot rest v with
    | some s => some (s + 1)
    | none => if f.id = v then some 0 else none

theorem lastSlot_lt_length (fs : List ClientFolder) (v s : Nat)
    (h : lastSlot fs v = some s) : s < fs.length := by
  induction fs generalizing s with
  | nil => cases h
  | cons f rest ih =>
    unfold lastSlot at h
    cases hrest : lastSlot rest v with
    | some s' =>
      rw [hrest] at h
      cases h
      have := ih s' hrest
      simp only [List.length_cons]
      omega
    | none =>
      rw [hrest] at h
      by_cases hid : f.id = v
      · rw [if_pos hid] at h
        cases h
        simp
      · rw [if_neg hid] at h
        cases h

theorem lastSlot_eq_none (fs : List ClientFolder) (v : Nat)
    (h : ∀ f ∈ fs, ¬ f.id = v) : lastSlot fs v = none := by
  induction fs with
  | nil => rfl
  | cons f rest ih =>
    unfold lastSlot
    rw [ih (fun g hg => h g (List.mem_cons_of_mem _ hg))]
    rw [if_neg (h f (List.mem_cons_self _ _))]

theorem mapLookup_cons_ne (x : Nat × Nat) (acc : List (Nat × Nat)) (v : Nat)
    (h : ¬ x.1 = v) : mapLookup (x :: acc) v = mapLookup acc v := by
  unfold mapLookup
  rw [List.find?_cons_of_neg]
  simpa using h

theorem mapLookup_cons_eq (x : Nat × Nat) (acc : List (Nat × Nat)) (v : Nat)
    (h : x.1 = v) : mapLookup (x :: acc) v = if x.2 = 0 then none else some x.2 := by
  unfold mapLookup
  rw [List.find?_cons_of_pos]
  simpa using h

theorem mapLookup_folderMapOf (fs : List ClientFolder) (n : Nat) (acc : List (Nat × Nat)) (v : Nat)
    (hn : 1 ≤ n) :
    mapLookup (folderMapOf n fs acc) v
      = match lastSlot fs v with
        | some s => some (n + s)
        | none => mapLookup acc v := by
  induction fs generalizing n acc with
  | nil => rfl
  | cons f rest ih =>
    show mapLookup (folderMapOf (n + 1) rest ((f.id, n) :: acc)) v = _
    rw [ih (n + 1) _ (by omega)]
    cases hrest : lastSlot rest v with
    | some s =>
      have h2 : lastSlot (f :: rest) v = some (s + 1) := by
        unfold lastSlot
        rw [hrest]
      rw [h2]
      dsimp only
      congr 1
      omega
    | none =>
      dsimp only
      by_cases hid : f.id = v
      · have h2 : lastSlot (f :: rest) v = some 0 := by
          unfold lastSlot
          rw [hrest, if_pos hid]
        rw [h2]
        dsimp only
        rw [mapLookup_cons_eq _ acc v hid]
        rw [if_neg (by omega)]
        simp
      · have h2 : lastSlot (f :: rest) v = none := by
          unfold lastSlot
          rw [hrest, if_neg hid]
        rw [h2]
        exact mapLookup_cons_ne _ acc v hid

theorem contains_eq_true_iff (l : List Nat) (x : Nat) : l.contains x = true ↔ x ∈ l := by
  simp

theorem sortByKeyNat_eq_self {α : Type} (key : α → Nat) (l : List α)
    (h : List.Sorted (fun a b => key a ≤ key b) l) : sortByKeyNat key l = l :=
  List.Sorted.insertionSort_eq h

theorem filter_sortByKeyNat {α : Type} (key : α → Nat) (p : α → Bool) (l : List α)
    (h : List.Sorted (fun a b => key a < key b) (l.filter p)) :
    (sortByKeyNat key l).filter p = l.filter p := by
  have hperm : ((sortByKeyNat key l).filter p).Perm (l.filter p) :=
    (List.perm_insertionSort _ l).filter p
  haveI htot : IsTotal α (fun a b => key a ≤ key b) := ⟨fun a b => Nat.le_total _ _⟩
  haveI htr : IsTrans α (fun a b => key a ≤ key b) := ⟨fun a b c => Nat.le_trans⟩
  have hsle : List.Sorted (fun a b => key a ≤ key b) ((sortByKeyNat key l).filter p) :=
    List.Sorted.filter p (List.sorted_insertionSort _ l)
  have hne : List.Pairwise (fun a b => ¬ key a = key b) (l.filter p) :=
    h.imp (fun hlt => by omega)
  have hsymm : ∀ {x y : α}, ¬ key x = key y → ¬ key y = key x :=
    fun hxy e => hxy e.symm
  have hne' : List.Pairwise (fun a b => ¬ key a = key b) ((sortByKeyNat key l).filter p) :=
    (List.Perm.pairwise_iff hsymm hperm).mpr hne
  have hslt : List.Sorted (fun a b => key a < key b) ((sortByKeyNat key l).filter p) :=
    (hsle.and hne').imp (fun hp => by omega)
  haveI : IsAntisymm α (fun a b => key a < key b) :=
    ⟨fun a b h1 h2 => absurd h2 (Nat.lt_asymm h1)⟩
  exact List.eq_of_perm_of_sorted hperm hslt h

theorem savedEntries_counter_le (u : String) (cls : List ClientChecklist) (i n : Nat) :
    n ≤ (savedEntries u cls i n).2 := by
  induction cls generalizing i n with
  | nil => exact Nat.le_refl n
  | cons c rest ih =>
    have := ih (i + 1) (n + 1 + (c.folders.getD []).length + (c.items.getD []).length)
    show n ≤ (savedEntries u rest (i + 1) _).2
    omega

theorem savedEntries_facts (u : String) (cls : List ClientChecklist) (i n : Nat) :
    ∀ e ∈ (savedEntries u cls i n).1,
      n ≤ e.1.id ∧ e.1.user_id = u ∧ i ≤ e.1.position
      ∧ (∀ f ∈ e.2.1, f.checklist_id = e.1.id ∧ n ≤ f.id)
      ∧ (∀ r ∈ e.2.2, r.checklist_id = e.1.id ∧ n ≤ r.id) := by
  induction cls generalizing i n with
  | nil => intro e he; cases he
  | cons c rest ih =>
    intro e he
    rcases List.mem_cons.mp he with rfl | he
    · refine ⟨Nat.le_refl n, rfl, Nat.le_refl i, ?_, ?_⟩
      · intro f hf
        obtain ⟨h1, h2⟩ := folderRowsOf_facts n (c.folders.getD []) (n + 1) f hf
        exact ⟨h1, by omega⟩
      · intro r hr
        obtain ⟨h1, h2⟩ := itemRowsOf_facts n _ (c.items.getD []) (n + 1 + (c.folders.getD []).length) r hr
        exact ⟨h1, by omega⟩
    · obtain ⟨h1, h2, h3, h4, h5⟩ :=
        ih (i + 1) (n + 1 + (c.folders.getD []).length + (c.items.getD []).length) e he
      refine ⟨by omega, h2, by omega, ?_, ?_⟩
      · intro f hf
        obtain ⟨g1, g2⟩ := h4 f hf
        exact ⟨g1, by omega⟩
      · intro r hr
        obtain ⟨g1, g2⟩ := h5 r hr
        exact ⟨g1, by omega⟩

theorem savedEntries_head_lt_tail (u : String) (cls : List ClientChecklist) (i n : Nat) :
    List.Pairwise (fun e e' : SavedEntry => e.1.id < e'.1.id ∧ e.1.position < e'.1.position)
      (savedEntries u cls i n).1 := by
  induction cls generalizing i n with
  | nil => exact List.Pairwise.nil
  | cons c rest ih =>
    refine List.pairwise_cons.mpr ⟨?_, ih (i + 1) _⟩
    intro e' he'
    obtain ⟨h1, _, h3, _, _⟩ :=
      savedEntries_facts u rest (i + 1) (n + 1 + (c.folders.getD []).length + (c.items.getD []).length) e' he'
    constructor
    · show n < e'.1.id
      omega
    · show i < e'.1.position
      omega

theorem savedEntries_cons (u : String) (c : ClientChecklist) (rest : List ClientChecklist)
    (i n : Nat) :
    (savedEntries u (c :: rest) i n).1
      = (⟨⟨n, u, c.name, i, some (jsStrOr c.position "General")⟩,
          folderRowsOf n (n + 1) (c.folders.getD []),
          itemRowsOf n (folderMapOf (n + 1) (c.folders.getD []) [])
            (n + 1 + (c.folders.getD []).length) (c.items.getD [])⟩ : SavedEntry)
        :: (savedEntries u rest (i + 1)
              (n + 1 + (c.folders.getD []).length + (c.items.getD []).length)).1 := rfl

theorem savedEntries_folder_block (u : String) (cls : List ClientChecklist) (i n : Nat) :
    ∀ e ∈ (savedEntries u cls i n).1,
      (((savedEntries u cls i n).1.map (fun e => e.2.1)).flatten).filter
        (fun f => f.checklist_id == e.1.id) = e.2.1 := by
  induction cls generalizing i n with
  | nil => intro e he; cases he
  | cons c rest ih =>
    intro e he
    rw [savedEntries_cons] at he ⊢
    simp only [List.map_cons, List.flatten_cons, List.filter_append]
    rcases List.mem_cons.mp he with rfl | he
    · dsimp only
      have h1 : (folderRowsOf n (n + 1) (c.folders.getD [])).filter
          (fun f => f.checklist_id == n) = folderRowsOf n (n + 1) (c.folders.getD []) := by
        rw [List.filter_eq_self]
        intro f hf
        have := (folderRowsOf_facts n (c.folders.getD []) (n + 1) f hf).1
        simp [this]
      have h2 : (((savedEntries u rest (i + 1)
            (n + 1 + (c.folders.getD []).length + (c.items.getD []).length)).1.map
            (fun e => e.2.1)).flatten).filter (fun f => f.checklist_id == n) = [] := by
        rw [List.filter_eq_nil_iff]
        intro f hf
        obtain ⟨l, hl, hfl⟩ := List.mem_flatten.mp hf
        obtain ⟨e2, he2, hle⟩ := List.mem_map.mp hl
        obtain ⟨g3, _, _, h4, _⟩ := savedEntries_facts u rest (i + 1) _ e2 he2
        obtain ⟨g1, g2⟩ := h4 f (hle ▸ hfl)
        simp only [beq_iff_eq]
        omega
      rw [h1, h2, List.append_nil]
    · obtain ⟨he1, _, _, _, _⟩ := savedEntries_facts u rest (i + 1) _ e he
      have h1 : (folderRowsOf n (n + 1) (c.folders.getD [])).filter
          (fun f => f.checklist_id == e.1.id) = [] := by
        rw [List.filter_eq_nil_iff]
        intro f hf
        have := (folderRowsOf_facts n (c.folders.getD []) (n + 1) f hf).1
        simp only [beq_iff_eq]
        omega
      rw [h1, List.nil_append]
      exact ih (i + 1) _ e he

theorem savedEntries_item_block (u : String) (cls : List ClientChecklist) (i n : Nat) :
    ∀ e ∈ (savedEntries u cls i n).1,
      (((savedEntries u cls i n).1.map (fun e => e.2.2)).flatten).filter
        (fun r => r.checklist_id == e.1.id) = e.2.2 := by
  induction cls generalizing i n with
  | nil => intro e he; cases he
  | cons c rest ih =>
    intro e he
    rw [savedEntries_cons] at he ⊢
    simp only [List.map_cons, List.flatten_cons, List.filter_append]
    rcases List.mem_cons.mp he with rfl | he
    · dsimp only
      have h1 : (itemRowsOf n (folderMapOf (n + 1) (c.folders.getD []) [])
            (n + 1 + (c.folders.getD []).length) (c.items.getD [])).filter
          (fun r => r.checklist_id == n)
          = itemRowsOf n (folderMapOf (n + 1) (c.folders.getD []) [])
              (n + 1 + (c.folders.getD []).length) (c.items.getD []) := by
        rw [List.filter_eq_self]
        intro r hr
        have := (itemRowsOf_facts n _ (c.items.getD []) _ r hr).1
        simp [this]
      have h2 : (((savedEntries u rest (i + 1)
            (n + 1 + (c.folders.getD []).length + (c.items.getD []).length)).1.map
            (fun e => e.2.2)).flatten).filter (fun r => r.checklist_id == n) = [] := by
        rw [List.filter_eq_nil_iff]
        intro r hr
        obtain ⟨l, hl, hrl⟩ := List.mem_flatten.mp hr
        obtain ⟨e2, he2, hle⟩ := List.mem_map.mp hl
        obtain ⟨g3, _, _, _, h5⟩ := savedEntries_facts u rest (i + 1) _ e2 he2
        obtain ⟨g1, g2⟩ := h5 r (hle ▸ hrl)
        simp only [beq_iff_eq]
        omega
      rw [h1, h2, List.append_nil]
    · obtain ⟨he1, _, _, _, _⟩ := savedEntries_facts u rest (i + 1) _ e he
      have h1 : (itemRowsOf n (folderMapOf (n + 1) (c.folders.getD []) [])
            (n + 1 + (c.folders.getD []).length) (c.items.getD [])).filter
          (fun r => r.checklist_id == e.1.id) = [] := by
        rw [List.filter_eq_nil_iff]
        intro r hr
        have := (itemRowsOf_facts n _ (c.items.getD []) _ r hr).1
        simp only [beq_iff_eq]
        omega
      rw [h1, List.nil_append]
      exact ih (i + 1) _ e he

theorem folderRowsOf_map_sortOrder (clId n : Nat) (fs : List ClientFolder) :
    (folderRowsOf clId n fs).map (fun f => f.sort_order) = fs.map (fun f => jsNatOr f.order 0) := by
  induction fs generalizing n with
  | nil => rfl
  | cons f rest ih => simp [folderRowsOf, ih]

theorem itemRowsOf_map_sortOrder (clId : Nat) (m : List (Nat × Nat)) (n : Nat) (its : List ClientItem) :
    (itemRowsOf clId m n its).map (fun r => r.sort_order) = its.map (fun it => jsNatOr it.order 0) := by
  induction its generalizing n with
  | nil => rfl
  | cons it rest ih => simp [itemRowsOf, ih]

theorem sorted_of_map_sortOrder {α : Type} (key : α → Nat) (l : List α) (ks : List Nat)
    (hmap : l.map key = ks) (hs : List.Pairwise (fun a b => a < b) ks) :
    List.Pairwise (fun a b => key a < key b) l := by
  subst hmap
  exact List.pairwise_map.mp hs

theorem savedEntries_blocks_sorted (u : String) (cls : List ClientChecklist) (i n : Nat)
    (hford : ∀ c ∈ cls, List.Pairwise (fun a b : ClientFolder => jsNatOr a.order 0 < jsNatOr b.order 0)
      (c.folders.getD []))
    (hitord : ∀ c ∈ cls, List.Pairwise (fun a b : ClientItem => jsNatOr a.order 0 < jsNatOr b.order 0)
      (c.items.getD [])) :
    ∀ e ∈ (savedEntries u cls i n).1,
      List.Pairwise (fun a b : FolderRow => a.sort_order < b.sort_order) e.2.1
      ∧ List.Pairwise (fun a b : ItemRow => a.sort_order < b.sort_order) e.2.2 := by
  induction cls generalizing i n with
  | nil => intro e he; cases he
  | cons c rest ih =>
    intro e he
    rw [savedEntries_cons] at he
    rcases List.mem_cons.mp he with rfl | he
    · constructor
      · refine sorted_of_map_sortOrder _ _ _ (folderRowsOf_map_sortOrder n (n + 1) (c.folders.getD [])) ?_
        exact List.pairwise_map.mpr (hford c (List.mem_cons_self _ _))
      · refine sorted_of_map_sortOrder _ _ _ (itemRowsOf_map_sortOrder n _ _ (c.items.getD [])) ?_
        exact List.pairwise_map.mpr (hitord c (List.mem_cons_self _ _))
    · exact ih (i + 1) _ (fun c2 hc2 => hford c2 (List.mem_cons_of_mem _ hc2))
        (fun c2 hc2 => hitord c2 (List.mem_cons_of_mem _ hc2)) e he

/-- The nested checklist the frontend receives for one saved entry. -/
def viewEntry (e : SavedEntry) : OutChecklist :=
  { id := e.1.id
    name := e.1.name
    position := jsStrOr e.1.role "General"
    folders := e.2.1.map (fun f => ⟨f.id, f.name, f.sort_order⟩)
    items := e.2.2.map (fun r => ⟨r.id, r.item_text, r.sort_order, r.folder_id, r.url⟩) }

theorem loadOp_after_saveLoop (u today : String) (cls : List ClientChecklist) (base : Store)
    (hb1 : base.checklists.filter (fun c => c.user_id == u) = [])
    (hb2 : ∀ f ∈ base.folders, f.checklist_id < base.nextId)
    (hb3 : ∀ r ∈ base.items, r.checklist_id < base.nextId)
    (hford : ∀ c ∈ cls, List.Pairwise (fun a b : ClientFolder => jsNatOr a.order 0 < jsNatOr b.order 0)
      (c.folders.getD []))
    (hitord : ∀ c ∈ cls, List.Pairwise (fun a b : ClientItem => jsNatOr a.order 0 < jsNatOr b.order 0)
      (c.items.getD [])) :
    (loadOp u today (saveLoop u cls 0 base)).1
      = (savedEntries u cls 0 base.nextId).1.map viewEntry := by
  set E := (savedEntries u cls 0 base.nextId).1 with hEdef
  have hEfacts := savedEntries_facts u cls 0 base.nextId
  rw [saveLoop_spec]
  unfold loadOp
  dsimp only
  -- the user's checklist rows are exactly the fresh ones, already in
  -- position order
  have hfilter_cls : (base.checklists ++ E.map (fun e => e.1)).filter (fun c => c.user_id == u)
      = E.map (fun e => e.1) := by
    rw [List.filter_append, hb1, List.nil_append, List.filter_eq_self]
    intro r hr
    obtain ⟨e, he, hre⟩ := List.mem_map.mp hr
    obtain ⟨_, h2, _, _, _⟩ := hEfacts e he
    rw [← hre]
    simp [h2]
  have hsorted_pos : List.Sorted (fun a b : ChecklistRow => a.position ≤ b.position)
      (E.map (fun e => e.1)) := by
    refine List.pairwise_map.mpr ?_
    exact (savedEntries_head_lt_tail u cls 0 base.nextId).imp (fun h => Nat.le_of_lt h.2)
  rw [hfilter_cls, sortByKeyNat_eq_self _ _ hsorted_pos]
  by_cases hE : E = []
  · rw [hE]
    simp
  · have hidsE : (((E.map (fun e => e.1)).map (fun c => c.id)).isEmpty) = false := by
      cases hEl : E with
      | nil => exact absurd hEl hE
      | cons e0 E2 => rfl
    rw [hidsE]
    simp only [Bool.false_eq_true, if_false]
    -- the folder and item fetches keep exactly the fresh rows
    have hmemids : ∀ e ∈ E, e.1.id ∈ (E.map (fun e => e.1)).map (fun c => c.id) := by
      intro e he
      exact List.mem_map_of_mem _ (List.mem_map_of_mem _ he)
    have hidge : ∀ x ∈ (E.map (fun e => e.1)).map (fun c => c.id), base.nextId ≤ x := by
      intro x hx
      obtain ⟨r, hr, hrx⟩ := List.mem_map.mp hx
      obtain ⟨e, he, hre⟩ := List.mem_map.mp hr
      obtain ⟨h1, _, _, _, _⟩ := hEfacts e he
      subst hrx
      subst hre
      simpa using h1
    have hffilter : (base.folders ++ (E.map (fun e => e.2.1)).flatten).filter
        (fun f => ((E.map (fun e => e.1)).map (fun c => c.id)).contains f.checklist_id)
        = (E.map (fun e => e.2.1)).flatten := by
      rw [List.filter_append]
      have hbase : base.folders.filter
          (fun f => ((E.map (fun e => e.1)).map (fun c => c.id)).contains f.checklist_id) = [] := by
        rw [List.filter_eq_nil_iff]
        intro f hf hcont
        have hmem := (contains_eq_true_iff _ _).mp hcont
        have := hidge _ hmem
        have := hb2 f hf
        omega
      have hnew : ((E.map (fun e => e.2.1)).flatten).filter
          (fun f => ((E.map (fun e => e.1)).map (fun c => c.id)).contains f.checklist_id)
          = (E.map (fun e => e.2.1)).flatten := by
        rw [List.filter_eq_self]
        intro f hf
        obtain ⟨l, hl, hfl⟩ := List.mem_flatten.mp hf
        obtain ⟨e, he, hle⟩ := List.mem_map.mp hl
        obtain ⟨_, _, _, h4, _⟩ := hEfacts e he
        obtain ⟨g1, _⟩ := h4 f (hle ▸ hfl)
        rw [g1]
        exact (contains_eq_true_iff _ _).mpr (hmemids e he)
      rw [hbase, hnew, List.nil_append]
    have hifilter : (base.items ++ (E.map (fun e => e.2.2)).flatten).filter
        (fun r => ((E.map (fun e => e.1)).map (fun c => c.id)).contains r.checklist_id)
        = (E.map (fun e => e.2.2)).flatten := by
      rw [List.filter_append]
      have hbase : base.items.filter
          (fun r => ((E.map (fun e => e.1)).map (fun c => c.id)).contains r.checklist_id) = [] := by
        rw [List.filter_eq_nil_iff]
        intro r hr hcont
        have hmem := (contains_eq_true_iff _ _).mp hcont
        have := hidge _ hmem
        have := hb3 r hr
        omega
      have hnew : ((E.map (fun e => e.2.2)).flatten).filter
          (fun r => ((E.map (fun e => e.1)).map (fun c => c.id)).contains r.checklist_id)
          = (E.map (fun e => e.2.2)).flatten := by
        rw [List.filter_eq_self]
        intro r hr
        obtain ⟨l, hl, hrl⟩ := List.mem_flatten.mp hr
        obtain ⟨e, he, hle⟩ := List.mem_map.mp hl
        obtain ⟨_, _, _, _, h5⟩ := hEfacts e he
        obtain ⟨g1, _⟩ := h5 r (hle ▸ hrl)
        rw [g1]
        exact (contains_eq_true_iff _ _).mpr (hmemids e he)
      rw [hbase, hnew, List.nil_append]
    rw [hffilter, hifilter, List.map_map]
    refine List.map_congr_left ?_
    intro e he
    simp only [Function.comp]
    have hblocks := savedEntries_blocks_sorted u cls 0 base.nextId hford hitord e he
    have hfblock := savedEntries_folder_block u cls 0 base.nextId e he
    have hiblock := savedEntries_item_block u cls 0 base.nextId e he
    have hfsorted : List.Sorted (fun a b : FolderRow => a.sort_order < b.sort_order)
        (((E.map (fun e => e.2.1)).flatten).filter (fun f => f.checklist_id == e.1.id)) := by
      rw [hfblock]
      exact hblocks.1
    have hisorted : List.Sorted (fun a b : ItemRow => a.sort_order < b.sort_order)
        (((E.map (fun e => e.2.2)).flatten).filter (fun r => r.checklist_id == e.1.id)) := by
      rw [hiblock]
      exact hblocks.2
    unfold viewEntry
    rw [filter_sortByKeyNat _ _ _ hfsorted, hfblock,
      filter_sortByKeyNat _ _ _ hisorted, hiblock]

theorem loadOp_fst_congr (u today : String) (st st' : Store)
    (h1 : st.checklists = st'.checklists) (h2 : st.folders = st'.folders)
    (h3 : st.items = st'.items) :
    (loadOp u today st).1 = (loadOp u today st').1 := by
  unfold loadOp
  dsimp only
  rw [h1, h2, h3]

theorem saveCompletionsStep_core (today nowIso : String) (comp : CompPayload) (st : Store) :
    (saveCompletionsStep today nowIso comp st).checklists = st.checklists
    ∧ (saveCompletionsStep today nowIso comp st).folders = st.folders
    ∧ (saveCompletionsStep today nowIso comp st).items = st.items
    ∧ (saveCompletionsStep today nowIso comp st).nextId = st.nextId := by
  unfold saveCompletionsStep
  dsimp only
  split
  · exact ⟨rfl, rfl, rfl, rfl⟩
  · split <;> exact ⟨rfl, rfl, rfl, rfl⟩

theorem backupCurrent_core (nowMs : Nat) (u : String) (st : Store) :
    (backupCurrentChecklists nowMs u st).checklists = st.checklists
    ∧ (backupCurrentChecklists nowMs u st).folders = st.folders
    ∧ (backupCurrentChecklists nowMs u st).items = st.items
    ∧ (backupCurrentChecklists nowMs u st).completions = st.completions
    ∧ st.nextId ≤ (backupCurrentChecklists nowMs u st).nextId := by
  unfold backupCurrentChecklists
  dsimp only
  split
  · exact ⟨rfl, rfl, rfl, rfl, Nat.le_refl _⟩
  · split <;> refine ⟨rfl, rfl, rfl, rfl, ?_⟩ <;> (dsimp only; omega)

theorem cascadeDelete_base (u : String) (st : Store)
    (hfr : ∀ f ∈ st.folders, f.checklist_id < st.nextId)
    (hir : ∀ i ∈ st.items, i.checklist_id < st.nextId) :
    (cascadeDeleteChecklists u st).checklists.filter (fun c => c.user_id == u) = []
    ∧ (∀ f ∈ (cascadeDeleteChecklists u st).folders, f.checklist_id < st.nextId)
    ∧ (∀ r ∈ (cascadeDeleteChecklists u st).items, r.checklist_id < st.nextId)
    ∧ (cascadeDeleteChecklists u st).nextId = st.nextId := by
  refine ⟨?_, ?_, ?_, rfl⟩
  · rw [show (cascadeDeleteChecklists u st).checklists
        = st.checklists.filter (fun c => !(c.user_id == u)) from rfl]
    rw [List.filter_filter, List.filter_eq_nil_iff]
    intro c _
    cases h : (c.user_id == u) <;> simp [h]
  · intro f hf
    have hf' : f ∈ st.folders := List.mem_of_mem_filter hf
    exact hfr f hf'
  · intro r hr
    rw [show (cascadeDeleteChecklists u st).items
        = ((st.items.filter (fun i =>
            !((((st.checklists.filter (fun c => c.user_id == u)).map (fun c => c.id))).contains i.checklist_id))).map
          (fun i =>
            match i.folder_id with
            | some fid =>
              if (((st.folders.filter (fun f =>
                  (((st.checklists.filter (fun c => c.user_id == u)).map (fun c => c.id))).contains f.checklist_id)).map
                    (fun f => f.id))).contains fid then { i with folder_id := none } else i
            | none => i)) from rfl] at hr
    obtain ⟨i0, hi0, hieq⟩ := List.mem_map.mp hr
    have hi0' : i0 ∈ st.items := List.mem_of_mem_filter hi0
    have hlt := hir i0 hi0'
    have hcid : r.checklist_id = i0.checklist_id := by
      rw [← hieq]
      cases i0.folder_id with
      | none => rfl
      | some fid =>
        dsimp only
        split <;> rfl
    omega

theorem folderRowsOf_map_view (clId n : Nat) (fs : List ClientFolder) :
    (folderRowsOf clId n fs).map (fun f => (f.name, f.sort_order))
      = fs.map (fun f => (f.name, jsNatOr f.order 0)) := by
  induction fs generalizing n with
  | nil => rfl
  | cons f rest ih => simp [folderRowsOf, ih]

theorem itemRowsOf_map_view (clId : Nat) (m : List (Nat × Nat)) (n : Nat) (its : List ClientItem) :
    (itemRowsOf clId m n its).map (fun r => (r.item_text, r.sort_order, r.url))
      = its.map (fun it => (it.text, jsNatOr it.order 0, jsStrOrNull it.url)) := by
  induction its generalizing n with
  | nil => rfl
  | cons it rest ih => simp [itemRowsOf, ih]

theorem itemRowsOf_map_folderId (clId : Nat) (m : List (Nat × Nat)) (n : Nat) (its : List ClientItem) :
    (itemRowsOf clId m n its).map (fun r => r.folder_id)
      = its.map (fun it => clientFolderRef m it.folderId) := by
  induction its generalizing n with
  | nil => rfl
  | cons it rest ih => simp [itemRowsOf, ih]

theorem jsStrOr_idem (v : Option String) (d : String) :
    jsStrOr (some (jsStrOr v d)) d = jsStrOr v d := by
  unfold jsStrOr
  cases v with
  | none =>
    dsimp only
    split <;> rfl
  | some s =>
    dsimp only
    by_cases hs : s = ""
    · rw [if_pos hs]
      split <;> rfl
    · rw [if_neg hs, if_neg hs]

theorem savedEntries_length (u : String) (cls : List ClientChecklist) (i n : Nat) :
    (savedEntries u cls i n).1.length = cls.length := by
  induction cls generalizing i n with
  | nil => rfl
  | cons c rest ih => simp [savedEntries_cons, ih]

theorem savedEntries_map_position (u : String) (cls : List ClientChecklist) (i n : Nat) :
    (savedEntries u cls i n).1.map (fun e => e.1.position) = List.range' i cls.length := by
  induction cls generalizing i n with
  | nil => rfl
  | cons c rest ih =>
    rw [savedEntries_cons]
    simp only [List.map_cons, List.length_cons, List.range']
    rw [ih]

theorem entry_folderId_correspondence (c : ClientChecklist) (clId : Nat) :
    (itemRowsOf clId (folderMapOf (clId + 1) (c.folders.getD []) [])
        (clId + 1 + (c.folders.getD []).length) (c.items.getD [])).map (fun r => r.folder_id)
      = (c.items.getD []).map (fun it =>
          ((jsNatTruthy it.folderId).bind (lastSlot (c.folders.getD []))).bind
            (fun s =>
              (((folderRowsOf clId (clId + 1) (c.folders.getD [])).map
                  (fun f => (⟨f.id, f.name, f.sort_order⟩ : OutFolder)))[s]?).map (fun f => f.id))) := by
  rw [itemRowsOf_map_folderId]
  refine List.map_congr_left ?_
  intro it _
  cases hjt : jsNatTruthy it.folderId with
  | none => simp [clientFolderRef, hjt]
  | some v =>
    simp only [clientFolderRef, hjt]
    rw [mapLookup_folderMapOf _ _ _ _ (by omega)]
    simp only [Option.some_bind]
    cases hls : lastSlot (c.folders.getD []) v with
    | none =>
      simp [mapLookup]
    | some s =>
      dsimp only
      have hslen := lastSlot_lt_length _ _ _ hls
      simp only [Option.some_bind, List.getElem?_map, folderRowsOf_getElem,
        List.getElem?_eq_getElem hslen]
      simp

theorem savedEntries_zip_content (u : String) (cls : List ClientChecklist) (i n : Nat) :
    ∀ p ∈ ((savedEntries u cls i n).1.map viewEntry).zip cls,
      p.1.name = p.2.name
      ∧ p.1.position = jsStrOr p.2.position "General"
      ∧ p.1.folders.map (fun f => (f.name, f.order))
          = (p.2.folders.getD []).map (fun f => (f.name, jsNatOr f.order 0))
      ∧ p.1.items.map (fun r => (r.text, r.order, r.url))
          = (p.2.items.getD []).map (fun it => (it.text, jsNatOr it.order 0, jsStrOrNull it.url))
      ∧ p.1.items.map (fun r => r.folderId)
          = (p.2.items.getD []).map (fun it =>
              ((jsNatTruthy it.folderId).bind (lastSlot (p.2.folders.getD []))).bind
                (fun s => (p.1.folders[s]?).map (fun f => f.id)))
      ∧ n ≤ p.1.id
      ∧ (∀ f ∈ p.1.folders, n ≤ f.id)
      ∧ (∀ r ∈ p.1.items, n ≤ r.id) := by
  induction cls generalizing i n with
  | nil => intro p hp; cases hp
  | cons c rest ih =>
    intro p hp
    rw [savedEntries_cons, List.map_cons, List.zip_cons_cons] at hp
    rcases List.mem_cons.mp hp with rfl | hp
    · refine ⟨rfl, jsStrOr_idem c.position "General", ?_, ?_, ?_, Nat.le_refl n, ?_, ?_⟩
      · show ((folderRowsOf n (n + 1) (c.folders.getD [])).map _).map _ = _
        rw [List.map_map]
        exact (List.map_congr_left (fun f _ => rfl)).trans
          (folderRowsOf_map_view n (n + 1) (c.folders.getD []))
      · show ((itemRowsOf n _ _ (c.items.getD [])).map _).map _ = _
        rw [List.map_map]
        exact (List.map_congr_left (fun r _ => rfl)).trans
          (itemRowsOf_map_view n _ _ (c.items.getD []))
      · show ((itemRowsOf n _ _ (c.items.getD [])).map _).map _ = _
        rw [List.map_map]
        exact (List.map_congr_left (fun r _ => rfl)).trans
          (entry_folderId_correspondence c n)
      · intro f hf
        obtain ⟨f0, hf0, hfe⟩ := List.mem_map.mp hf
        have := (folderRowsOf_facts n (c.folders.getD []) (n + 1) f0 hf0).2
        rw [← hfe]
        show n ≤ f0.id
        omega
      · intro r hr
        obtain ⟨r0, hr0, hre⟩ := List.mem_map.mp hr
        have := (itemRowsOf_facts n _ (c.items.getD []) _ r0 hr0).2
        rw [← hre]
        show n ≤ r0.id
        omega
    · obtain ⟨h1, h2, h3, h4, h5, h6, h7, h8⟩ := ih (i + 1) _ p hp
      have hmono : n ≤ n + 1 + (c.folders.getD []).length + (c.items.getD []).length := by omega
      refine ⟨h1, h2, h3, h4, h5, by omega, ?_, ?_⟩
      · intro f hf
        have := h7 f hf
        omega
      · intro r hr
        have := h8 r hr
        omega

theorem filter_user_append_saved (u : String) (l : List ChecklistRow)
    (cls : List ClientChecklist) (i n : Nat)
    (hl : l.filter (fun c => c.user_id == u) = []) :
    (l ++ (savedEntries u cls i n).1.map (fun e => e.1)).filter (fun c => c.user_id == u)
      = (savedEntries u cls i n).1.map (fun e => e.1) := by
  rw [List.filter_append, hl, List.nil_append, List.filter_eq_self]
  intro r hr
  obtain ⟨e, he, hre⟩ := List.mem_map.mp hr
  obtain ⟨_, h2, _, _, _⟩ := savedEntries_facts u cls i n e he
  rw [← hre]
  simp [h2]

/-- Claim C5 (amended): `Load` after `Save(U, C, comp?)`, from any
well-formed store, returns exactly one checklist per input checklist, in
input order, where — provided each checklist lists its folders and items
in strictly increasing `order` (after the `|| 0` coercion), so that the
load path's re-sort by `sort_order` does not permute them — each output
checklist carries the input's name; its `position` field carries the role
label the client sent under the key `position`, with a falsy label
replaced by `'General'`; folders and items match the input pointwise in
name/text, order and url; each item's `folderId` resolves to the freshly
assigned id of the folder slot its client-local `folderId` referenced
(the last folder with that id), or null; all returned ids are freshly
store-assigned (at or above the pre-save id counter); and the stored
`position` column of the user's rows is exactly the 0-based input index
sequence. -/
theorem c5_roundtrip (u today nowIso : String) (nowMs : Nat) (cls : List ClientChecklist)
    (comp : Option CompPayload) (st : Store) (hwf : Store.WF st)
    (hford : ∀ c ∈ cls, List.Pairwise (fun a b : ClientFolder => jsNatOr a.order 0 < jsNatOr b.order 0)
      (c.folders.getD []))
    (hitord : ∀ c ∈ cls, List.Pairwise (fun a b : ClientItem => jsNatOr a.order 0 < jsNatOr b.order 0)
      (c.items.getD [])) :
    (saveOp u today nowIso nowMs cls comp st).1 = ChkResponse.saved
    ∧ (loadOp u today (saveOp u today nowIso nowMs cls comp st).2).1.length = cls.length
    ∧ (∀ p ∈ ((loadOp u today (saveOp u today nowIso nowMs cls comp st).2).1).zip cls,
        p.1.name = p.2.name
        ∧ p.1.position = jsStrOr p.2.position "General"
        ∧ p.1.folders.map (fun f => (f.name, f.order))
            = (p.2.folders.getD []).map (fun f => (f.name, jsNatOr f.order 0))
        ∧ p.1.items.map (fun r => (r.text, r.order, r.url))
            = (p.2.items.getD []).map (fun it => (it.text, jsNatOr it.order 0, jsStrOrNull it.url))
        ∧ p.1.items.map (fun r => r.folderId)
            = (p.2.items.getD []).map (fun it =>
                ((jsNatTruthy it.folderId).bind (lastSlot (p.2.folders.getD []))).bind
                  (fun s => (p.1.folders[s]?).map (fun f => f.id)))
        ∧ st.nextId ≤ p.1.id
        ∧ (∀ f ∈ p.1.folders, st.nextId ≤ f.id)
        ∧ (∀ r ∈ p.1.items, st.nextId ≤ r.id))
    ∧ ((saveOp u today nowIso nowMs cls comp st).2.checklists.filter
        (fun c => c.user_id == u)).map (fun c => c.position) = List.range cls.length := by
  have hbk := backupCurrent_core nowMs u st
  have hcas := cascadeDelete_base u (backupCurrentChecklists nowMs u st)
    (by rw [hbk.2.1]; intro f hf; have := hwf.folders_ref_lt f hf; omega)
    (by rw [hbk.2.2.1]; intro r hr; have := hwf.items_ref_lt r hr; omega)
  set base := cascadeDeleteChecklists u (backupCurrentChecklists nowMs u st) with hbase
  have hnb : st.nextId ≤ base.nextId := by
    rw [hcas.2.2.2]
    exact hbk.2.2.2.2
  have hb2 : ∀ f ∈ base.folders, f.checklist_id < base.nextId := by
    rw [hcas.2.2.2]
    exact hcas.2.1
  have hb3 : ∀ r ∈ base.items, r.checklist_id < base.nextId := by
    rw [hcas.2.2.2]
    exact hcas.2.2.1
  have hcore : (loadOp u today (saveLoop u cls 0 base)).1
      = (savedEntries u cls 0 base.nextId).1.map viewEntry :=
    loadOp_after_saveLoop u today cls base hcas.1 hb2 hb3 hford hitord
  have hst2 : (saveOp u today nowIso nowMs cls comp st).2
      = match comp with
        | some m => saveCompletionsStep today nowIso m (saveLoop u cls 0 base)
        | none => saveLoop u cls 0 base := rfl
  have hload : (loadOp u today (saveOp u today nowIso nowMs cls comp st).2).1
      = (loadOp u today (saveLoop u cls 0 base)).1 := by
    rw [hst2]
    cases comp with
    | none => rfl
    | some m =>
      have hc := saveCompletionsStep_core today nowIso m (saveLoop u cls 0 base)
      exact loadOp_fst_congr u today _ _ hc.1 hc.2.1 hc.2.2.1
  have hchk : (saveOp u today nowIso nowMs cls comp st).2.checklists
      = base.checklists ++ (savedEntries u cls 0 base.nextId).1.map (fun e => e.1) := by
    rw [hst2]
    cases comp with
    | none => rw [saveLoop_spec]
    | some m =>
      have hc := saveCompletionsStep_core today nowIso m (saveLoop u cls 0 base)
      rw [hc.1, saveLoop_spec]
  refine ⟨rfl, ?_, ?_, ?_⟩
  · rw [hload, hcore, List.length_map, savedEntries_length]
  · intro p hp
    rw [hload, hcore] at hp
    obtain ⟨h1, h2, h3, h4, h5, h6, h7, h8⟩ :=
      savedEntries_zip_content u cls 0 base.nextId p hp
    refine ⟨h1, h2, h3, h4, h5, by omega, ?_, ?_⟩
    · intro f hf
      have := h7 f hf
      omega
    · intro r hr
      have := h8 r hr
      omega
  · rw [hchk, filter_user_append_saved u _ cls 0 base.nextId hcas.1, List.map_map]
    have : ((savedEntries u cls 0 base.nextId).1.map
        ((fun c => c.position) ∘ (fun e => e.1)))
        = (savedEntries u cls 0 base.nextId).1.map (fun e => e.1.position) :=
      List.map_congr_left (fun e _ => rfl)
    rw [this, savedEntries_map_position, List.range_eq_range']

/-- A one-checklist save input with folders and items in strictly
increasing order, one filed item (client folder id 1) and one dangling
reference (client folder id 9). -/
def c5DemoInput : List ClientChecklist :=
  [⟨"AM", some "Tech", some [⟨1, "V", some 0⟩, ⟨2, "W", some 3⟩],
     some [⟨"BP", some "u", some 1, some 1⟩, ⟨"HR", none, some 2, some 9⟩]⟩]

/-- Claim C5 witness: the round-trip theorem applied to a concrete save
from alice's one-checklist store. -/
theorem c5_roundtrip_witness :
    (saveOp "alice" "2025-10-11" "T1" 100 c5DemoInput none aliceStore).1 = ChkResponse.saved
    ∧ (loadOp "alice" "2025-10-11"
        (saveOp "alice" "2025-10-11" "T1" 100 c5DemoInput none aliceStore).2).1.length
        = c5DemoInput.length
    ∧ (∀ p ∈ ((loadOp "alice" "2025-10-11"
          (saveOp "alice" "2025-10-11" "T1" 100 c5DemoInput none aliceStore).2).1).zip c5DemoInput,
        p.1.name = p.2.name
        ∧ p.1.position = jsStrOr p.2.position "General"
        ∧ p.1.folders.map (fun f => (f.name, f.order))
            = (p.2.folders.getD []).map (fun f => (f.name, jsNatOr f.order 0))
        ∧ p.1.items.map (fun r => (r.text, r.order, r.url))
            = (p.2.items.getD []).map (fun it => (it.text, jsNatOr it.order 0, jsStrOrNull it.url))
        ∧ p.1.items.map (fun r => r.folderId)
            = (p.2.items.getD []).map (fun it =>
                ((jsNatTruthy it.folderId).bind (lastSlot (p.2.folders.getD []))).bind
                  (fun s => (p.1.folders[s]?).map (fun f => f.id)))
        ∧ aliceStore.nextId ≤ p.1.id
        ∧ (∀ f ∈ p.1.folders, aliceStore.nextId ≤ f.id)
        ∧ (∀ r ∈ p.1.items, aliceStore.nextId ≤ r.id))
    ∧ ((saveOp "alice" "2025-10-11" "T1" 100 c5DemoInput none aliceStore).2.checklists.filter
        (fun c => c.user_id == "alice")).map (fun c => c.position) = List.range c5DemoInput.length :=
  c5_roundtrip "alice" "2025-10-11" "T1" 100 c5DemoInput none aliceStore
    ⟨by decide, by decide, by decide, by decide, by decide, by decide, by decide, by decide⟩
    (by decide) (by decide)

theorem filter_orderedInsert {α : Type} (r : α → α → Prop) [DecidableRel r] [IsTrans α r]
    (p : α → Bool) (x : α) (l : List α) (hs : List.Sorted r l) :
    (List.orderedInsert r x l).filter p
      = if p x then List.orderedInsert r x (l.filter p) else l.filter p := by
  induction l with
  | nil =>
    cases hx : p x <;> simp [List.orderedInsert, List.filter, hx]
  | cons b l' ih =>
    have hs' : List.Sorted r l' := hs.of_cons
    by_cases hr : r x b
    · rw [List.orderedInsert_of_le r _ hr]
      cases hx : p x with
      | true =>
        cases hb : p b with
        | true =>
          rw [List.filter_cons_of_pos hx, List.filter_cons_of_pos hb, if_pos rfl]
          exact (List.orderedInsert_of_le r _ hr).symm
        | false =>
          rw [List.filter_cons_of_pos hx, List.filter_cons_of_neg (by simp [hb]), if_pos rfl]
          cases hfl : l'.filter p with
          | nil => rfl
          | cons y t =>
            have hy : y ∈ l' := List.mem_of_mem_filter (by rw [hfl]; exact List.mem_cons_self y t)
            have hxy : r x y := Trans.trans hr (List.rel_of_sorted_cons hs y hy)
            exact (List.orderedInsert_of_le r _ hxy).symm
      | false =>
        cases hb : p b with
        | true =>
          rw [List.filter_cons_of_neg (by simp [hx]), List.filter_cons_of_pos hb,
            if_neg (by simp [hx])]
        | false =>
          rw [List.filter_cons_of_neg (by simp [hx]), List.filter_cons_of_neg (by simp [hb]),
            if_neg (by simp [hx])]
    · have hoi : List.orderedInsert r x (b :: l') = b :: List.orderedInsert r x l' := by
        simp [List.orderedInsert, hr]
      rw [hoi]
      cases hb : p b with
      | true =>
        rw [List.filter_cons_of_pos hb, ih hs', List.filter_cons_of_pos hb]
        cases hx : p x with
        | true =>
          rw [if_pos rfl, if_pos rfl]
          have hoi2 : List.orderedInsert r x (b :: l'.filter p)
              = b :: List.orderedInsert r x (l'.filter p) := by
            simp [List.orderedInsert, hr]
          rw [hoi2]
        | false =>
          rw [if_neg (by simp), if_neg (by simp)]
      | false =>
        rw [List.filter_cons_of_neg (by simp [hb]), ih hs', List.filter_cons_of_neg (by simp [hb])]

theorem filter_insertionSort_stable {α : Type} (r : α → α → Prop) [DecidableRel r]
    [IsTotal α r] [IsTrans α r] (p : α → Bool) (l : List α) :
    (List.insertionSort r l).filter p = List.insertionSort r (l.filter p) := by
  induction l with
  | nil => rfl
  | cons x l' ih =>
    show (List.orderedInsert r x (List.insertionSort r l')).filter p = _
    rw [filter_orderedInsert r p x _ (List.sorted_insertionSort r l'), ih]
    cases hx : p x with
    | true =>
      rw [if_pos rfl, List.filter_cons_of_pos hx]
      rfl
    | false =>
      rw [if_neg (by simp), List.filter_cons_of_neg (by simp [hx])]

theorem filter_sortByKeyNat_stable {α : Type} (key : α → Nat) (p : α → Bool) (l : List α) :
    (sortByKeyNat key l).filter p = sortByKeyNat key (l.filter p) := by
  haveI : IsTotal α (fun a b => key a ≤ key b) := ⟨fun a b => Nat.le_total _ _⟩
  haveI : IsTrans α (fun a b => key a ≤ key b) := ⟨fun a b c => Nat.le_trans⟩
  exact filter_insertionSort_stable _ p l

theorem mem_sortByKeyNat {α : Type} (key : α → Nat) (l : List α) (x : α) :
    x ∈ sortByKeyNat key l ↔ x ∈ l := by
  unfold sortByKeyNat
  exact (List.perm_insertionSort _ l).mem_iff

theorem zip_getElem? {α β : Type} (l1 : List α) (l2 : List β) (k : Nat) :
    (l1.zip l2)[k]?
      = match l1[k]?, l2[k]? with
        | some a, some b => some (a, b)
        | _, _ => none := by
  induction l1 generalizing l2 k with
  | nil => cases l2 <;> simp
  | cons a as ih =>
    cases l2 with
    | nil => simp
    | cons b bs =>
      cases k with
      | zero => simp
      | succ k =>
        simp only [List.zip_cons_cons, List.getElem?_cons_succ]
        exact ih bs k

/-- The nested checklist the frontend receives for one saved entry, with
the folder and item lists as the load path returns them: re-sorted by
`sort_order` (stable). -/
def sortedViewEntry (e : SavedEntry) : OutChecklist :=
  { id := e.1.id
    name := e.1.name
    position := jsStrOr e.1.role "General"
    folders := (sortByKeyNat (fun f => f.sort_order) e.2.1).map (fun f => ⟨f.id, f.name, f.sort_order⟩)
    items := (sortByKeyNat (fun r => r.sort_order) e.2.2).map
      (fun r => ⟨r.id, r.item_text, r.sort_order, r.folder_id, r.url⟩) }

theorem loadOp_after_saveLoop_stable (u today : String) (cls : List ClientChecklist) (base : Store)
    (hb1 : base.checklists.filter (fun c => c.user_id == u) = [])
    (hb2 : ∀ f ∈ base.folders, f.checklist_id < base.nextId)
    (hb3 : ∀ r ∈ base.items, r.checklist_id < base.nextId) :
    (loadOp u today (saveLoop u cls 0 base)).1
      = (savedEntries u cls 0 base.nextId).1.map sortedViewEntry := by
  set E := (savedEntries u cls 0 base.nextId).1 with hEdef
  have hEfacts := savedEntries_facts u cls 0 base.nextId
  rw [saveLoop_spec]
  unfold loadOp
  dsimp only
  have hfilter_cls : (base.checklists ++ E.map (fun e => e.1)).filter (fun c => c.user_id == u)
      = E.map (fun e => e.1) := filter_user_append_saved u _ cls 0 base.nextId hb1
  have hsorted_pos : List.Sorted (fun a b : ChecklistRow => a.position ≤ b.position)
      (E.map (fun e => e.1)) := by
    refine List.pairwise_map.mpr ?_
    exact (savedEntries_head_lt_tail u cls 0 base.nextId).imp (fun h => Nat.le_of_lt h.2)
  rw [hfilter_cls, sortByKeyNat_eq_self _ _ hsorted_pos]
  by_cases hE : E = []
  · rw [hE]
    simp
  · have hidsE : (((E.map (fun e => e.1)).map (fun c => c.id)).isEmpty) = false := by
      cases hEl : E with
      | nil => exact absurd hEl hE
      | cons e0 E2 => rfl
    rw [hidsE]
    simp only [Bool.false_eq_true, if_false]
    have hmemids : ∀ e ∈ E, e.1.id ∈ (E.map (fun e => e.1)).map (fun c => c.id) := by
      intro e he
      exact List.mem_map_of_mem _ (List.mem_map_of_mem _ he)
    have hidge : ∀ x ∈ (E.map (fun e => e.1)).map (fun c => c.id), base.nextId ≤ x := by
      intro x hx
      obtain ⟨r, hr, hrx⟩ := List.mem_map.mp hx
      obtain ⟨e, he, hre⟩ := List.mem_map.mp hr
      obtain ⟨h1, _, _, _, _⟩ := hEfacts e he
      subst hrx
      subst hre
      simpa using h1
    have hffilter : (base.folders ++ (E.map (fun e => e.2.1)).flatten).filter
        (fun f => ((E.map (fun e => e.1)).map (fun c => c.id)).contains f.checklist_id)
        = (E.map (fun e => e.2.1)).flatten := by
      rw [List.filter_append]
      have hbase : base.folders.filter
          (fun f => ((E.map (fun e => e.1)).map (fun c => c.id)).contains f.checklist_id) = [] := by
        rw [List.filter_eq_nil_iff]
        intro f hf hcont
        have hmem := (contains_eq_true_iff _ _).mp hcont
        have := hidge _ hmem
        have := hb2 f hf
        omega
      have hnew : ((E.map (fun e => e.2.1)).flatten).filter
          (fun f => ((E.map (fun e => e.1)).map (fun c => c.id)).contains f.checklist_id)
          = (E.map (fun e => e.2.1)).flatten := by
        rw [List.filter_eq_self]
        intro f hf
        obtain ⟨l, hl, hfl⟩ := List.mem_flatten.mp hf
        obtain ⟨e, he, hle⟩ := List.mem_map.mp hl
        obtain ⟨_, _, _, h4, _⟩ := hEfacts e he
        obtain ⟨g1, _⟩ := h4 f (hle ▸ hfl)
        rw [g1]
        exact (contains_eq_true_iff _ _).mpr (hmemids e he)
      rw [hbase, hnew, List.nil_append]
    have hifilter : (base.items ++ (E.map (fun e => e.2.2)).flatten).filter
        (fun r => ((E.map (fun e => e.1)).map (fun c => c.id)).contains r.checklist_id)
        = (E.map (fun e => e.2.2)).flatten := by
      rw [List.filter_append]
      have hbase : base.items.filter
          (fun r => ((E.map (fun e => e.1)).map (fun c => c.id)).contains r.checklist_id) = [] := by
        rw [List.filter_eq_nil_iff]
        intro r hr hcont
        have hmem := (contains_eq_true_iff _ _).mp hcont
        have := hidge _ hmem
        have := hb3 r hr
        omega
      have hnew : ((E.map (fun e => e.2.2)).flatten).filter
          (fun r => ((E.map (fun e => e.1)).map (fun c => c.id)).contains r.checklist_id)
          = (E.map (fun e => e.2.2)).flatten := by
        rw [List.filter_eq_self]
        intro r hr
        obtain ⟨l, hl, hrl⟩ := List.mem_flatten.mp hr
        obtain ⟨e, he, hle⟩ := List.mem_map.mp hl
        obtain ⟨_, _, _, _, h5⟩ := hEfacts e he
        obtain ⟨g1, _⟩ := h5 r (hle ▸ hrl)
        rw [g1]
        exact (contains_eq_true_iff _ _).mpr (hmemids e he)
      rw [hbase, hnew, List.nil_append]
    rw [hffilter, hifilter, List.map_map]
    refine List.map_congr_left ?_
    intro e he
    simp only [Function.comp]
    have hfblock := savedEntries_folder_block u cls 0 base.nextId e he
    have hiblock := savedEntries_item_block u cls 0 base.nextId e he
    unfold sortedViewEntry
    rw [filter_sortByKeyNat_stable, hfblock, filter_sortByKeyNat_stable, hiblock]

/-- Claim C8: a save input in which some item's `folderId` matches no
folder's client-local id in the same checklist still succeeds, the item's
row is stored with a null `folder_id` (unfiled, under a fresh id), and the
subsequent load returns it with `folderId: null`. -/
theorem c8_dangling_folder_unfiled (u today nowIso : String) (nowMs : Nat)
    (cls : List ClientChecklist) (comp : Option CompPayload) (st : Store) (hwf : Store.WF st)
    (k : Nat) (hk : k < cls.length) (j : Nat) (item : ClientItem)
    (hitem : ((cls.get ⟨k, hk⟩).items.getD [])[j]? = some item)
    (v : Nat) (hfid : item.folderId = some v) (hv : ¬ v = 0)
    (hdang : ∀ f ∈ (cls.get ⟨k, hk⟩).folders.getD [], ¬ f.id = v) :
    (saveOp u today nowIso nowMs cls comp st).1 = ChkResponse.saved
    ∧ (∃ rrow ∈ (saveOp u today nowIso nowMs cls comp st).2.items,
        rrow.item_text = item.text ∧ rrow.folder_id = none ∧ st.nextId ≤ rrow.id)
    ∧ (∃ oc ∈ (loadOp u today (saveOp u today nowIso nowMs cls comp st).2).1,
        ∃ oi ∈ oc.items, oi.text = item.text ∧ oi.folderId = none ∧ st.nextId ≤ oi.id) := by
  have hbk := backupCurrent_core nowMs u st
  have hcas := cascadeDelete_base u (backupCurrentChecklists nowMs u st)
    (by rw [hbk.2.1]; intro f hf; have := hwf.folders_ref_lt f hf; omega)
    (by rw [hbk.2.2.1]; intro r hr; have := hwf.items_ref_lt r hr; omega)
  set base := cascadeDeleteChecklists u (backupCurrentChecklists nowMs u st) with hbase
  have hnb : st.nextId ≤ base.nextId := by
    rw [hcas.2.2.2]
    exact hbk.2.2.2.2
  have hb2 : ∀ f ∈ base.folders, f.checklist_id < base.nextId := by
    rw [hcas.2.2.2]
    exact hcas.2.1
  have hb3 : ∀ r ∈ base.items, r.checklist_id < base.nextId := by
    rw [hcas.2.2.2]
    exact hcas.2.2.1
  set E := (savedEntries u cls 0 base.nextId).1 with hEdef
  have hst2 : (saveOp u today nowIso nowMs cls comp st).2
      = match comp with
        | some m => saveCompletionsStep today nowIso m (saveLoop u cls 0 base)
        | none => saveLoop u cls 0 base := rfl
  have hload : (loadOp u today (saveOp u today nowIso nowMs cls comp st).2).1
      = E.map sortedViewEntry := by
    have hstep : (loadOp u today (saveOp u today nowIso nowMs cls comp st).2).1
        = (loadOp u today (saveLoop u cls 0 base)).1 := by
      rw [hst2]
      cases comp with
      | none => rfl
      | some m =>
        have hc := saveCompletionsStep_core today nowIso m (saveLoop u cls 0 base)
        exact loadOp_fst_congr u today _ _ hc.1 hc.2.1 hc.2.2.1
    rw [hstep]
    exact loadOp_after_saveLoop_stable u today cls base hcas.1 hb2 hb3
  have hitems : (saveOp u today nowIso nowMs cls comp st).2.items
      = base.items ++ (E.map (fun e => e.2.2)).flatten := by
    rw [hst2]
    cases comp with
    | none => rw [saveLoop_spec]
    | some m =>
      have hc := saveCompletionsStep_core today nowIso m (saveLoop u cls 0 base)
      rw [hc.2.2.1, saveLoop_spec]
  -- the k-th saved entry
  have hkE : k < E.length := by
    rw [hEdef, savedEntries_length]
    exact hk
  have heE : E.get ⟨k, hkE⟩ ∈ E := List.get_mem _ _ _
  set e := E.get ⟨k, hkE⟩ with hedef
  have hzipmem : (viewEntry e, cls.get ⟨k, hk⟩) ∈ (E.map viewEntry).zip cls := by
    have hz : ((E.map viewEntry).zip cls)[k]? = some (viewEntry e, cls.get ⟨k, hk⟩) := by
      rw [zip_getElem?, List.getElem?_map, List.getElem?_eq_getElem hkE,
        List.getElem?_eq_getElem hk]
      rfl
    exact List.getElem?_mem hz
  obtain ⟨_, _, _, h4, h5, _, _, _⟩ := savedEntries_zip_content u cls 0 base.nextId _ hzipmem
  -- the j-th item row of that entry has a null folder reference
  have h5j := congrArg (fun l => l[j]?) h5
  dsimp only at h5j
  simp only [List.getElem?_map, hitem, Option.map_some'] at h5j
  have hbig : ((jsNatTruthy item.folderId).bind
      (lastSlot ((cls.get ⟨k, hk⟩).folders.getD []))).bind
        (fun s => ((viewEntry e).folders[s]?).map (fun f => f.id)) = none := by
    rw [hfid]
    have htr : jsNatTruthy (some v) = some v := by
      unfold jsNatTruthy
      dsimp only
      rw [if_neg hv]
    rw [htr, Option.some_bind, lastSlot_eq_none _ _ hdang]
    rfl
  rw [hbig] at h5j
  have h5j' : ((viewEntry e).items[j]?).map (fun r => r.folderId) = some none := h5j
  obtain ⟨oi0, hoi0, hoifid⟩ := Option.map_eq_some'.mp h5j'
  -- recover the underlying item row
  have hsplit : (viewEntry e).items = e.2.2.map
      (fun r => (⟨r.id, r.item_text, r.sort_order, r.folder_id, r.url⟩ : OutItem)) := rfl
  have hoi0' := hoi0
  rw [hsplit, List.getElem?_map] at hoi0'
  obtain ⟨r, hr, hroi⟩ := Option.map_eq_some'.mp hoi0'
  have hrmem : r ∈ e.2.2 := List.getElem?_mem hr
  -- its text matches the client item
  have h4j := congrArg (fun l => l[j]?) h4
  dsimp only at h4j
  simp only [List.getElem?_map, hitem, hoi0, Option.map_some'] at h4j
  have htext : oi0.text = item.text := by
    have := Option.some.inj h4j
    exact congrArg (fun t => t.1) this
  have hrtext : r.item_text = item.text := by
    rw [← htext, ← hroi]
  have hrfid : r.folder_id = none := by
    have : oi0.folderId = none := hoifid
    rw [← hroi] at this
    exact this
  have hrid : st.nextId ≤ r.id := by
    obtain ⟨_, _, _, _, h5f⟩ := savedEntries_facts u cls 0 base.nextId e heE
    have := (h5f r hrmem).2
    omega
  refine ⟨rfl, ?_, ?_⟩
  · refine ⟨r, ?_, hrtext, hrfid, hrid⟩
    rw [hitems]
    refine List.mem_append_right _ ?_
    exact List.mem_flatten.mpr ⟨e.2.2, List.mem_map_of_mem _ heE, hrmem⟩
  · refine ⟨sortedViewEntry e, ?_, ?_⟩
    · rw [hload]
      exact List.mem_map_of_mem _ heE
    · refine ⟨⟨r.id, r.item_text, r.sort_order, r.folder_id, r.url⟩, ?_, hrtext, hrfid, hrid⟩
      show _ ∈ (sortByKeyNat (fun r => r.sort_order) e.2.2).map _
      exact List.mem_map_of_mem _ ((mem_sortByKeyNat _ _ _).mpr hrmem)

/-- Claim C8 witness: the dangling reference (client folder id 9) in
`c5DemoInput` is saved unfiled and loaded with a null `folderId`. -/
theorem c8_dangling_folder_unfiled_witness :
    (saveOp "alice" "2025-10-11" "T1" 100 c5DemoInput none aliceStore).1 = ChkResponse.saved
    ∧ (∃ rrow ∈ (saveOp "alice" "2025-10-11" "T1" 100 c5DemoInput none aliceStore).2.items,
        rrow.item_text = (⟨"HR", none, some 2, some 9⟩ : ClientItem).text
        ∧ rrow.folder_id = none ∧ aliceStore.nextId ≤ rrow.id)
    ∧ (∃ oc ∈ (loadOp "alice" "2025-10-11"
          (saveOp "alice" "2025-10-11" "T1" 100 c5DemoInput none aliceStore).2).1,
        ∃ oi ∈ oc.items, oi.text = (⟨"HR", none, some 2, some 9⟩ : ClientItem).text
        ∧ oi.folderId = none ∧ aliceStore.nextId ≤ oi.id) :=
  c8_dangling_folder_unfiled "alice" "2025-10-11" "T1" 100 c5DemoInput none aliceStore
    ⟨by decide, by decide, by decide, by decide, by decide, by decide, by decide, by decide⟩
    0 (by decide) 1 ⟨"HR", none, some 2, some 9⟩ (by decide) 9 (by decide) (by decide) (by decide)

theorem savedEntries_map_role (u : String) (cls : List ClientChecklist) (i n : Nat) :
    (savedEntries u cls i n).1.map (fun e => e.1.role)
      = cls.map (fun c => some (jsStrOr c.position "General")) := by
  induction cls generalizing i n with
  | nil => rfl
  | cons c rest ih =>
    rw [savedEntries_cons]
    simp only [List.map_cons]
    rw [ih]

/-- Claim C10: a checklist whose client `position` (role label) is absent
or empty is stored with role `'General'` and round-trips to the string
`'General'`; and independently, the load path substitutes `'General'` for
any stored role that is null or empty. -/
theorem c10_falsy_role_general :
    (∀ (u today nowIso : String) (nowMs : Nat) (cls : List ClientChecklist)
        (comp : Option CompPayload) (st : Store), Store.WF st →
      ∀ (k : Nat) (hk : k < cls.length),
        ((cls.get ⟨k, hk⟩).position = none ∨ (cls.get ⟨k, hk⟩).position = some "") →
        (∃ row ∈ (saveOp u today nowIso nowMs cls comp st).2.checklists,
            row.user_id = u ∧ row.position = k ∧ row.role = some "General")
        ∧ (∃ oc, (loadOp u today (saveOp u today nowIso nowMs cls comp st).2).1[k]? = some oc
            ∧ oc.position = "General"))
    ∧ (∀ (u today : String) (st0 : Store) (row : ChecklistRow),
        row ∈ st0.checklists → row.user_id = u →
        (row.role = none ∨ row.role = some "") →
        ∃ oc ∈ (loadOp u today st0).1, oc.id = row.id ∧ oc.position = "General") := by
  constructor
  · intro u today nowIso nowMs cls comp st hwf k hk hpos
    have hbk := backupCurrent_core nowMs u st
    have hcas := cascadeDelete_base u (backupCurrentChecklists nowMs u st)
      (by rw [hbk.2.1]; intro f hf; have := hwf.folders_ref_lt f hf; omega)
      (by rw [hbk.2.2.1]; intro r hr; have := hwf.items_ref_lt r hr; omega)
    set base := cascadeDeleteChecklists u (backupCurrentChecklists nowMs u st) with hbase
    have hb2 : ∀ f ∈ base.folders, f.checklist_id < base.nextId := by
      rw [hcas.2.2.2]
      exact hcas.2.1
    have hb3 : ∀ r ∈ base.items, r.checklist_id < base.nextId := by
      rw [hcas.2.2.2]
      exact hcas.2.2.1
    set E := (savedEntries u cls 0 base.nextId).1 with hEdef
    have hst2 : (saveOp u today nowIso nowMs cls comp st).2
        = match comp with
          | some m => saveCompletionsStep today nowIso m (saveLoop u cls 0 base)
          | none => saveLoop u cls 0 base := rfl
    have hchk : (saveOp u today nowIso nowMs cls comp st).2.checklists
        = base.checklists ++ E.map (fun e => e.1) := by
      rw [hst2]
      cases comp with
      | none => rw [saveLoop_spec]
      | some m =>
        have hc := saveCompletionsStep_core today nowIso m (saveLoop u cls 0 base)
        rw [hc.1, saveLoop_spec]
    have hload : (loadOp u today (saveOp u today nowIso nowMs cls comp st).2).1
        = E.map sortedViewEntry := by
      have hstep : (loadOp u today (saveOp u today nowIso nowMs cls comp st).2).1
          = (loadOp u today (saveLoop u cls 0 base)).1 := by
        rw [hst2]
        cases comp with
        | none => rfl
        | some m =>
          have hc := saveCompletionsStep_core today nowIso m (saveLoop u cls 0 base)
          exact loadOp_fst_congr u today _ _ hc.1 hc.2.1 hc.2.2.1
      rw [hstep]
      exact loadOp_after_saveLoop_stable u today cls base hcas.1 hb2 hb3
    have hkE : k < E.length := by
      rw [hEdef, savedEntries_length]
      exact hk
    set e := E.get ⟨k, hkE⟩ with hedef
    have heE : e ∈ E := List.get_mem _ _ _
    -- the k-th entry's role is the falsy-coerced label
    have hrole : e.1.role = some (jsStrOr (cls.get ⟨k, hk⟩).position "General") := by
      have hmr := congrArg (fun l => l[k]?) (savedEntries_map_role u cls 0 base.nextId)
      dsimp only at hmr
      rw [List.getElem?_map, List.getElem?_map, List.getElem?_eq_getElem hkE,
        List.getElem?_eq_getElem hk, Option.map_some', Option.map_some'] at hmr
      exact Option.some.inj hmr
    have hgen : jsStrOr (cls.get ⟨k, hk⟩).position "General" = "General" := by
      rcases hpos with h | h <;> rw [h] <;> rfl
    have hposk : e.1.position = k := by
      have hmp := congrArg (fun l => l[k]?) (savedEntries_map_position u cls 0 base.nextId)
      dsimp only at hmp
      rw [List.getElem?_map, List.getElem?_eq_getElem hkE,
        Option.map_some', List.getElem?_range' _ _ (by rw [← savedEntries_length u cls 0 base.nextId, ← hEdef]; exact hkE)] at hmp
      have h2 : e.1.position = 0 + 1 * k := Option.some.inj hmp
      omega
    have huser : e.1.user_id = u := (savedEntries_facts u cls 0 base.nextId e heE).2.1
    constructor
    · refine ⟨e.1, ?_, huser, hposk, by rw [hrole, hgen]⟩
      rw [hchk]
      exact List.mem_append_right _ (List.mem_map_of_mem _ heE)
    · refine ⟨sortedViewEntry e, ?_, ?_⟩
      · rw [hload, List.getElem?_map, List.getElem?_eq_getElem hkE]
        rfl
      · show jsStrOr e.1.role "General" = "General"
        rw [hrole, jsStrOr_idem, hgen]
  · intro u today st0 row hmem huser hrole
    unfold loadOp
    dsimp only
    have hfil : row ∈ st0.checklists.filter (fun c => c.user_id == u) :=
      List.mem_filter.mpr ⟨hmem, by simp [huser]⟩
    have hsort : row ∈ sortByKeyNat (fun c => c.position)
        (st0.checklists.filter (fun c => c.user_id == u)) :=
      (mem_sortByKeyNat _ _ _).mpr hfil
    refine ⟨_, List.mem_map_of_mem _ hsort, rfl, ?_⟩
    show jsStrOr row.role "General" = "General"
    rcases hrole with h | h <;> rw [h] <;> rfl

/-- A save input whose single checklist carries an empty role label under
the `position` key. -/
def c10Input : List ClientChecklist := [⟨"X", some "", none, none⟩]

/-- A store holding one alice checklist whose stored role is null. -/
def c10Store : Store :=
  { checklists := [⟨1, "alice", "AM", 0, none⟩]
    folders := []
    items := []
    completions := []
    appData := []
    nextId := 2 }

/-- Claim C10 witness: saving an empty role label stores and round-trips
`'General'`, and loading a null stored role displays `'General'`. -/
theorem c10_falsy_role_general_witness :
    ((∃ row ∈ (saveOp "alice" "2025-10-11" "T1" 100 c10Input none aliceStore).2.checklists,
        row.user_id = "alice" ∧ row.position = 0 ∧ row.role = some "General")
      ∧ (∃ oc, (loadOp "alice" "2025-10-11"
          (saveOp "alice" "2025-10-11" "T1" 100 c10Input none aliceStore).2).1[0]? = some oc
          ∧ oc.position = "General"))
    ∧ (∃ oc ∈ (loadOp "alice" "2025-10-11" c10Store).1, oc.id = 1 ∧ oc.position = "General") :=
  ⟨c10_falsy_role_general.1 "alice" "2025-10-11" "T1" 100 c10Input none aliceStore
      ⟨by decide, by decide, by decide, by decide, by decide, by decide, by decide, by decide⟩
      0 (by decide) (Or.inr (by decide)),
   c10_falsy_role_general.2 "alice" "2025-10-11" c10Store ⟨1, "alice", "AM", 0, none⟩
      (by decide) rfl (Or.inl rfl)⟩

end HDF
